import Mathlib

/-!
Verification development for the power-link interactive connection engine.

The definitions below are a shallow embedding of the TypeScript sources:
  * `connector/utils/geometry.ts` (distance, clamp),
  * `connector/view/ViewportController.ts` (zoomAtPoint, screenToWorld, setViewState),
  * `connector/core/Hook.ts` (SequentialHook.execute, PreventableHook.execute),
  * `connector/model/{NodeModel,DotModel,ConnectionModel}.ts`,
  * `connector/interaction/SnapHandler.ts` (checkSnap),
  * `connector/interaction/index.ts` (the Connector orchestrator:
    registerNode, unregisterNode, createConnection, connect, disconnect,
    save, load).

Numbers (JS floats) are modelled as exact rationals `ℚ`.  DOM elements are
dropped; a dot ("anchor") is identified by its side, a node keeps its
element's offset position as a `Point`.  Hook callbacks are modelled as pure
functions returning an explicit outcome so that a callback that throws is
representable (`.thrown`); `console` logging and host notifications are
modelled as an explicit event trace.  `Math.sqrt(d) < bound` comparisons of
the snap detector are rendered square-root-free via the exact equivalence
`Real.sqrt d < b ↔ 0 < b ∧ d < b * b` (for `d ≥ 0`).
-/

/-- Side of a dot (anchor): `'left' | 'right'` from `types.ts`. -/
inductive DotPosition where
  | left
  | right
deriving DecidableEq, Repr

/-- Rendering of a `DotPosition` as the string used in generated ids. -/
def DotPosition.str : DotPosition → String
  | .left => "left"
  | .right => "right"

/-- A 2-D point (`Point` in `types.ts`), with exact rational coordinates. -/
@[ext]
structure Point where
  x : ℚ
  y : ℚ
deriving DecidableEq, Repr

/-- `clamp` from `utils/geometry.ts`: `Math.max(min, Math.min(max, value))`. -/
def clamp (value lo hi : ℚ) : ℚ :=
  max lo (min hi value)

/-- Squared Euclidean distance.  `calculateDistance` in `utils/geometry.ts`
returns `Math.sqrt(dx*dx + dy*dy)`; the embedding keeps the square and
renders every comparison of distances square-root-free (see `stepAnchor`). -/
def distSq (p1 p2 : Point) : ℚ :=
  let dx := p2.x - p1.x
  let dy := p2.y - p1.y
  dx * dx + dy * dy

/-- `ViewState` from `types.ts`: `{scale, translateX, translateY}`. -/
structure ViewState where
  scale : ℚ
  translateX : ℚ
  translateY : ℚ
deriving DecidableEq, Repr

/-- The zoom bounds of `ViewportConfig` (`minZoom`/`maxZoom`). -/
structure ViewCfg where
  minZoom : ℚ
  maxZoom : ℚ
deriving DecidableEq, Repr

/-- `ViewportController.zoomAtPoint`: clamp the new scale, compute the world
point under `(pointX, pointY)` at the old scale, and re-derive the translate
so that the same world point stays under the cursor. -/
def zoomAtPoint (cfg : ViewCfg) (vs : ViewState) (newScale pointX pointY : ℚ) : ViewState :=
  let ns := clamp newScale cfg.minZoom cfg.maxZoom
  let worldX := (pointX - vs.translateX) / vs.scale
  let worldY := (pointY - vs.translateY) / vs.scale
  { scale := ns
    translateX := pointX - worldX * ns
    translateY := pointY - worldY * ns }

/-- `ViewportController.screenToWorld`: `(s - translate) / scale` per axis. -/
def screenToWorld (vs : ViewState) (screenX screenY : ℚ) : Point :=
  ⟨(screenX - vs.translateX) / vs.scale, (screenY - vs.translateY) / vs.scale⟩

/-- `ViewportController.worldToScreen`: the inverse affine map. -/
def worldToScreen (vs : ViewState) (worldX worldY : ℚ) : Point :=
  ⟨worldX * vs.scale + vs.translateX, worldY * vs.scale + vs.translateY⟩

/-! ## Hook runtime (`core/Hook.ts`) -/

/-- Outcome of one sequential-hook callback invocation: it either returns a
value of the data type or throws (the `try/catch` in `execute` swallows the
throw). -/
inductive SeqOutcome (T : Type) where
  | ret (v : T)
  | thrown
deriving DecidableEq

/-- Outcome of one preventable-hook callback invocation: returns data,
returns the sentinel `false`, or throws. -/
inductive PrevOutcome (T : Type) where
  | ret (v : T)
  | fls
  | thrown
deriving DecidableEq

/-- `HookResult` from `core/Hook.ts`. -/
structure HookResult (T : Type) where
  data : T
  prevented : Bool
deriving DecidableEq

/-- `SequentialHook.execute`: thread the data through the callbacks in
order; a throwing callback is caught and the data is left unchanged. -/
def seqExecute {T : Type} : List (T → SeqOutcome T) → T → T
  | [], d => d
  | cb :: rest, d =>
    match cb d with
    | .ret v => seqExecute rest v
    | .thrown => seqExecute rest d

/-- `PreventableHook.execute`: like `seqExecute`, but a callback returning
`false` short-circuits with `prevented = true` and the data from before that
callback; a throwing callback is caught and the chain continues. -/
def prevExecute {T : Type} : List (T → PrevOutcome T) → T → HookResult T
  | [], d => ⟨d, false⟩
  | cb :: rest, d =>
    match cb d with
    | .ret v => prevExecute rest v
    | .fls => ⟨d, true⟩
    | .thrown => prevExecute rest d

/-- Number of callbacks actually invoked by `prevExecute` on the same input:
the loop body runs once per callback until (and including) the one that
returns `false`. -/
def prevRunCount {T : Type} : List (T → PrevOutcome T) → T → Nat
  | [], _ => 0
  | cb :: rest, d =>
    match cb d with
    | .ret v => 1 + prevRunCount rest v
    | .fls => 1
    | .thrown => 1 + prevRunCount rest d

/-! ## Topology model (`model/`) -/

/-- `NodeModel`: id, element offset position, opaque info, the ordered dot
sides (`_dotPositions`, which also gives the `Map` insertion order of
`_dots`), and the ids of the connections touching the node
(`_connections`). -/
structure NodeModel where
  id : String
  pos : Point
  info : Option String
  dotPositions : List DotPosition
  connections : List String
deriving DecidableEq, Repr

/-- `NodeModel.getDot`: the dot at `position`, if the node has one. -/
def NodeModel.getDot (n : NodeModel) (p : DotPosition) : Option DotPosition :=
  if p ∈ n.dotPositions then some p else none

/-- `NodeModel.getLeftDot`. -/
def NodeModel.getLeftDot (n : NodeModel) : Option DotPosition :=
  n.getDot .left

/-- `NodeModel.getRightDot`. -/
def NodeModel.getRightDot (n : NodeModel) : Option DotPosition :=
  n.getDot .right

/-- `NodeModel.getFirstDot`: first dot in `Map` insertion order. -/
def NodeModel.getFirstDot (n : NodeModel) : Option DotPosition :=
  n.dotPositions.head?

/-- `ConnectionModel`: id plus the two endpoint node ids and dot sides
(endpoints are immutable after creation). -/
structure ConnectionModel where
  id : String
  fromNodeId : String
  toNodeId : String
  fromDot : DotPosition
  toDot : DotPosition
deriving DecidableEq, Repr

/-- `ConnectionModel.matches`: symmetric endpoint-equivalence test used for
duplicate detection — the straight or the crossed tuple matches. -/
def ConnectionModel.matches (c : ConnectionModel)
    (fromNodeId toNodeId : String) (fromDotPosition toDotPosition : DotPosition) : Bool :=
  (c.fromNodeId == fromNodeId && c.toNodeId == toNodeId &&
      c.fromDot == fromDotPosition && c.toDot == toDotPosition) ||
  (c.fromNodeId == toNodeId && c.toNodeId == fromNodeId &&
      c.fromDot == toDotPosition && c.toDot == fromDotPosition)

/-- `ConnectionModel.involvesNode`. -/
def ConnectionModel.involvesNode (c : ConnectionModel) (nodeId : String) : Bool :=
  c.fromNodeId == nodeId || c.toNodeId == nodeId

/-- `ConnectionModel.generateId`; `Date.now()` is modelled by the engine
state's `now` field. -/
def ConnectionModel.generateId (fromNodeId toNodeId : String)
    (fromDotPosition toDotPosition : DotPosition) (now : Nat) : String :=
  fromNodeId ++ "-" ++ toNodeId ++ "-" ++ fromDotPosition.str ++ "-" ++
    toDotPosition.str ++ "-" ++ toString now

/-- The endpoint tuple of a connection, ignoring the generated id. -/
def connTuple (c : ConnectionModel) : String × String × DotPosition × DotPosition :=
  (c.fromNodeId, c.toNodeId, c.fromDot, c.toDot)

/-! ## Orchestrator state (`interaction/index.ts`) -/

/-- The owned state of one `Connector` instance: node list, connection list,
viewport state and zoom bounds, and the current clock for `Date.now()`. -/
structure ConnState where
  nodes : List NodeModel
  connections : List ConnectionModel
  view : ViewState
  cfg : ViewCfg
  now : Nat

/-- `this.nodes.find(n => n.id === id)`. -/
def findNode (st : ConnState) (id : String) : Option NodeModel :=
  st.nodes.find? (fun n => n.id == id)

/-- `NodeModel.addConnection` applied through the engine's node list: push
the connection id onto every node with the given id unless already
present (JS mutates the unique object with that id in place). -/
def addConnToNode (nodes : List NodeModel) (nodeId cid : String) : List NodeModel :=
  nodes.map (fun n =>
    if n.id = nodeId then
      if cid ∈ n.connections then n else { n with connections := n.connections ++ [cid] }
    else n)

/-- `NodeModel.removeConnection` applied through the engine's node list:
drop the first occurrence of the connection id. -/
def removeConnFromNode (nodes : List NodeModel) (nodeId cid : String) : List NodeModel :=
  nodes.map (fun n =>
    if n.id = nodeId then { n with connections := n.connections.erase cid } else n)

/-- `beforeNodeRegister` hook payload (`{id, element, options}` minus DOM). -/
structure RegisterParams where
  id : String
  info : Option String

/-- `beforeConnect` hook payload `{fromNode, toNode, fromDot, toDot}`. -/
structure ConnectParams where
  fromNode : NodeModel
  toNode : NodeModel
  fromDot : DotPosition
  toDot : DotPosition

/-- Serialized node state (`NodeState` in `types/hooks.ts`). -/
structure NodeState where
  id : String
  position : Point
  dotPositions : List DotPosition
  info : Option String
deriving DecidableEq, Repr

/-- Serialized connection state (`ConnectionState`). -/
structure ConnectionState where
  id : String
  fromNodeId : String
  toNodeId : String
  fromDot : DotPosition
  toDot : DotPosition
deriving DecidableEq, Repr

/-- Serialized engine state (`ConnectorState`). -/
structure ConnectorState where
  version : String
  nodes : List NodeState
  connections : List ConnectionState
  viewState : ViewState
deriving DecidableEq, Repr

/-- The endpoint tuple of a serialized connection. -/
def csTuple (cs : ConnectionState) : String × String × DotPosition × DotPosition :=
  (cs.fromNodeId, cs.toNodeId, cs.fromDot, cs.toDot)

/-- The `ConnectionModel` carrying the same fields as a serialized
connection. -/
def csConn (cs : ConnectionState) : ConnectionModel :=
  ⟨cs.id, cs.fromNodeId, cs.toNodeId, cs.fromDot, cs.toDot⟩

/-- The hook registry of one engine instance (the extension points the
claims touch; payload types follow `ConnectorHooks.ts`). -/
structure Hooks where
  beforeNodeRegister : List (RegisterParams → PrevOutcome RegisterParams)
  beforeNodeRemove : List (NodeModel → PrevOutcome NodeModel)
  beforeConnect : List (ConnectParams → PrevOutcome ConnectParams)
  afterConnect : List (ConnectionModel → SeqOutcome ConnectionModel)
  beforeDisconnect : List (ConnectionModel → PrevOutcome ConnectionModel)
  afterDisconnect : List (ConnectionModel → SeqOutcome ConnectionModel)
  saveHook : List (ConnectorState → SeqOutcome ConnectorState)
  loadHook : List (ConnectorState → SeqOutcome ConnectorState)

/-- The hook registry with no callbacks registered (a fresh engine). -/
def emptyHooks : Hooks :=
  ⟨[], [], [], [], [], [], [], []⟩

/-- Observable side effects of the orchestrator: `console` warnings and
hook / host-callback firings, recorded as an event trace. -/
inductive Ev where
  | warnMissingNode
  | warnMissingDot
  | blockedConnect
  | warnDuplicate
  | connectNotified
  | beforeDisconnectFired (cid : String)
  | blockedDisconnect (cid : String)
  | afterDisconnectFired (cid : String)
  | disconnectNotified (cid : String)
deriving DecidableEq, Repr

/-- `Connector.setViewState` (via `ViewportController.setViewState`): the
scale is clamped to `[minZoom, maxZoom]`, translations are copied. -/
def setViewStateOp (st : ConnState) (vs : ViewState) : ConnState :=
  { st with view := ⟨clamp vs.scale st.cfg.minZoom st.cfg.maxZoom, vs.translateX, vs.translateY⟩ }

/-! ## Orchestrator operations (`interaction/index.ts`) -/

/-- Source-side dot auto-selection:
`fromNode.getRightDot() || fromNode.getLeftDot() || fromNode.getFirstDot()`. -/
def autoFromDot (n : NodeModel) : Option DotPosition :=
  match n.getRightDot with
  | some d => some d
  | none =>
    match n.getLeftDot with
    | some d => some d
    | none => n.getFirstDot

/-- Target-side dot auto-selection:
`toNode.getLeftDot() || toNode.getRightDot() || toNode.getFirstDot()`. -/
def autoToDot (n : NodeModel) : Option DotPosition :=
  match n.getLeftDot with
  | some d => some d
  | none =>
    match n.getRightDot with
    | some d => some d
    | none => n.getFirstDot

/-- Tail of `createConnection` after hook approval, on the (possibly
hook-rewritten) parameters `q`: reject duplicates via the symmetric
`matches`, generate the id, construct the connection, push it, register it
on both endpoint nodes, run `afterConnect` (its return value is discarded),
and notify the host unless `silent`. -/
def createApproved (hooks : Hooks) (st : ConnState) (q : ConnectParams) (silent : Bool) :
    Option ConnectionModel × ConnState × List Ev :=
  match st.connections.find? (fun c =>
      c.matches q.fromNode.id q.toNode.id q.fromDot q.toDot) with
  | some _ => (none, st, [Ev.warnDuplicate])
  | none =>
    let cid := ConnectionModel.generateId q.fromNode.id q.toNode.id q.fromDot q.toDot st.now
    let conn : ConnectionModel := ⟨cid, q.fromNode.id, q.toNode.id, q.fromDot, q.toDot⟩
    let nodes1 := addConnToNode st.nodes q.fromNode.id cid
    let nodes2 := addConnToNode nodes1 q.toNode.id cid
    let _afterData := seqExecute hooks.afterConnect conn
    let evs := if silent then ([] : List Ev) else [Ev.connectNotified]
    (some conn, { st with connections := st.connections ++ [conn], nodes := nodes2 }, evs)

/-- Middle of `createConnection` once both dots are resolved: run the
`beforeConnect` preventable hook and abort on prevention, else continue
with the possibly rewritten parameters. -/
def createWithDots (hooks : Hooks) (st : ConnState) (fromNode toNode : NodeModel)
    (fd td : DotPosition) (silent : Bool) : Option ConnectionModel × ConnState × List Ev :=
  let r := prevExecute hooks.beforeConnect ⟨fromNode, toNode, fd, td⟩
  if r.prevented then (none, st, [Ev.blockedConnect])
  else createApproved hooks st r.data silent

/-- `Connector.createConnection`: auto-select missing dots (source prefers
right, then left, then the first dot; target prefers left, then right, then
the first), warn when a dot is still missing, then proceed through the
`beforeConnect` gate and the approved-creation tail. -/
def createConnection (hooks : Hooks) (st : ConnState) (fromNode toNode : NodeModel)
    (fromDotIn toDotIn : Option DotPosition) (silent : Bool) :
    Option ConnectionModel × ConnState × List Ev :=
  let fromDotO :=
    match fromDotIn with
    | some d => some d
    | none => autoFromDot fromNode
  let toDotO :=
    match toDotIn with
    | some d => some d
    | none => autoToDot toNode
  match fromDotO, toDotO with
  | some fd, some td => createWithDots hooks st fromNode toNode fd td silent
  | _, _ => (none, st, [Ev.warnMissingDot])

/-- `Connector.connect`: resolve node ids; a requested dot side that the
node does not have resolves to `null` and falls back to auto-selection in
`createConnection`, exactly as `fromDot ?? null` does in the source. -/
def connect (hooks : Hooks) (st : ConnState) (fromNodeId toNodeId : String)
    (fromDotPosition toDotPosition : Option DotPosition) (silent : Bool) :
    Option ConnectionModel × ConnState × List Ev :=
  match findNode st fromNodeId, findNode st toNodeId with
  | some fn, some tn =>
    createConnection hooks st fn tn
      (fromDotPosition.bind fn.getDot) (toDotPosition.bind tn.getDot) silent
  | _, _ => (none, st, [Ev.warnMissingNode])

/-- `Connector.disconnect` with an id: find the connection, run
`beforeDisconnect` (preventable), and on approval remove it from both
endpoint nodes and from the engine list, then run `afterDisconnect`
(result discarded) and notify unless `silent`. -/
def disconnectOne (hooks : Hooks) (st : ConnState) (connectionId : String) (silent : Bool) :
    ConnState × List Ev :=
  match st.connections.find? (fun c => c.id == connectionId) with
  | none => (st, [])
  | some conn =>
    let r := prevExecute hooks.beforeDisconnect conn
    if r.prevented then (st, [Ev.beforeDisconnectFired conn.id, Ev.blockedDisconnect conn.id])
    else
      let conns := st.connections.eraseP (fun c => c.id == connectionId)
      let nodes1 := removeConnFromNode st.nodes conn.fromNodeId conn.id
      let nodes2 := removeConnFromNode nodes1 conn.toNodeId conn.id
      let _afterData := seqExecute hooks.afterDisconnect conn
      let evs := [Ev.beforeDisconnectFired conn.id, Ev.afterDisconnectFired conn.id] ++
        (if silent then ([] : List Ev) else [Ev.disconnectNotified conn.id])
      ({ st with connections := conns, nodes := nodes2 }, evs)

/-- One step of a disconnect sweep: disconnect the snapshot entry `c` by id
against the running state, appending its events. -/
def discStep (hooks : Hooks) (silent : Bool) (acc : ConnState × List Ev)
    (c : ConnectionModel) : ConnState × List Ev :=
  let r := disconnectOne hooks acc.1 c.id silent
  (r.1, acc.2 ++ r.2)

/-- `Connector.disconnect` without an id: snapshot the live list and
disconnect each connection individually (each with its own hook pair). -/
def disconnectAll (hooks : Hooks) (st : ConnState) (silent : Bool) : ConnState × List Ev :=
  st.connections.foldl (discStep hooks silent) (st, ([] : List Ev))

/-- `Connector.unregisterNode`: find the node, run `beforeNodeRemove`
(preventable), disconnect every touching connection (normal hook sequence,
not silent), then remove the node itself. -/
def unregisterNode (hooks : Hooks) (st : ConnState) (nodeId : String) :
    Bool × ConnState × List Ev :=
  match findNode st nodeId with
  | none => (false, st, [])
  | some node =>
    let r := prevExecute hooks.beforeNodeRemove node
    if r.prevented then (false, st, [])
    else
      let touching := st.connections.filter (fun c =>
        c.fromNodeId == nodeId || c.toNodeId == nodeId)
      let folded := touching.foldl (discStep hooks false) (st, ([] : List Ev))
      (true, { folded.1 with nodes := folded.1.nodes.eraseP (fun n => n.id == nodeId) },
        folded.2)

/-- Raw entry of the `dotPositions` option: untyped JS callers may pass
values that are neither `'left'` nor `'right'`; the source filters them
out. -/
inductive RawSide where
  | left
  | right
  | invalid
deriving DecidableEq, Repr

/-- The filter predicate `pos === 'left' || pos === 'right'` as a partial
conversion. -/
def rawToDot : RawSide → Option DotPosition
  | .left => some .left
  | .right => some .right
  | .invalid => none

/-- The `dotPositions` option of `registerNode`: `'both'` or an array. -/
inductive DotSpec where
  | both
  | arr (ps : List RawSide)
deriving DecidableEq, Repr

/-- `NodeOptions` of `registerNode`. -/
structure NodeOptions where
  info : Option String
  dotPositions : Option DotSpec
deriving DecidableEq, Repr

/-- `[...new Set(l)]`: deduplicate keeping the first occurrence of each
element, preserving order. -/
def dedupFirst (l : List DotPosition) : List DotPosition :=
  l.foldl (fun acc p => if p ∈ acc then acc else acc ++ [p]) []

/-- `Connector.registerNode`: reject an existing id, run
`beforeNodeRegister` (preventable; its data result is discarded — the
source only reads `prevented`), resolve the dot sides ('both' → both sides;
an array → filtered to valid sides; omitted → right for an empty engine,
left otherwise; then dedup and keep at most two), and append the node. -/
def registerNode (hooks : Hooks) (st : ConnState) (id : String) (pos : Point)
    (opts : NodeOptions) : Option NodeModel × ConnState :=
  if (findNode st id).isSome then (none, st)
  else
    let r := prevExecute hooks.beforeNodeRegister ⟨id, opts.info⟩
    if r.prevented then (none, st)
    else
      let raw : List DotPosition :=
        match opts.dotPositions with
        | some DotSpec.both => [DotPosition.left, DotPosition.right]
        | some (DotSpec.arr ps) => ps.filterMap rawToDot
        | none => [if st.nodes.isEmpty then DotPosition.right else DotPosition.left]
      let resolved := (dedupFirst raw).take 2
      let node : NodeModel := ⟨id, pos, opts.info, resolved, []⟩
      (some node, { st with nodes := st.nodes ++ [node] })

/-- `Connector.save`: serialize nodes (element offset position, dot sides,
info), connections (ids and endpoint tuples) and the view state, then pass
the draft through the `save` sequential hook. -/
def save (hooks : Hooks) (st : ConnState) : ConnectorState :=
  let nodes := st.nodes.map (fun n => NodeState.mk n.id n.pos n.dotPositions n.info)
  let conns := st.connections.map (fun c =>
    ConnectionState.mk c.id c.fromNodeId c.toNodeId c.fromDot c.toDot)
  seqExecute hooks.saveHook ⟨"1.0.0", nodes, conns, st.view⟩

/-- Warnings accumulated by `Connector.load` for vanished nodes or dots. -/
inductive LoadWarning where
  | missingFromNode (nodeId connId : String)
  | missingToNode (nodeId connId : String)
  | missingFromDot (nodeId : String) (p : DotPosition)
  | missingToDot (nodeId : String) (p : DotPosition)
deriving DecidableEq, Repr

/-- One step of the `load` recreation loop: resolve the saved connection's
node ids and dot sides against the running state, warn (and skip) when a
referenced node or dot no longer exists, otherwise recreate the
connection. -/
def loadConnStep (hooks : Hooks) (silent : Bool) (acc : ConnState × List LoadWarning)
    (cs : ConnectionState) : ConnState × List LoadWarning :=
  match findNode acc.1 cs.fromNodeId with
  | none => (acc.1, acc.2 ++ [LoadWarning.missingFromNode cs.fromNodeId cs.id])
  | some fn =>
    match findNode acc.1 cs.toNodeId with
    | none => (acc.1, acc.2 ++ [LoadWarning.missingToNode cs.toNodeId cs.id])
    | some tn =>
      match fn.getDot cs.fromDot with
      | none => (acc.1, acc.2 ++ [LoadWarning.missingFromDot cs.fromNodeId cs.fromDot])
      | some fd =>
        match tn.getDot cs.toDot with
        | none => (acc.1, acc.2 ++ [LoadWarning.missingToDot cs.toNodeId cs.toDot])
        | some td =>
          let r := createConnection hooks acc.1 fn tn (some fd) (some td) silent
          (r.2.1, acc.2)

/-- `Connector.load`: pass the incoming state through the `load` sequential
hook, silently disconnect everything, restore the view state, then recreate
each saved connection by node-id/dot lookup, accumulating warnings.  Node
positions are never written. -/
def load (hooks : Hooks) (st : ConnState) (state : ConnectorState) (silent : Bool) :
    ConnState × List LoadWarning :=
  let state2 := seqExecute hooks.loadHook state
  let cleared := (disconnectAll hooks st true).1
  let st2 := setViewStateOp cleared state2.viewState
  state2.connections.foldl (loadConnStep hooks silent) (st2, ([] : List LoadWarning))

/-! ## Snap detector (`interaction/SnapHandler.ts`) -/

/-- `SnapHandlerConfig`. -/
structure SnapConfig where
  enabled : Bool
  snapDistance : ℚ
deriving DecidableEq, Repr

/-- `SnapResult` (minus the DOM references). -/
structure SnapResult where
  nodeId : String
  dot : DotPosition
  position : Point
deriving DecidableEq, Repr

/-- The running `closestDistance` bound: `Infinity` initially (`none`),
otherwise the squared distance of the best candidate so far. -/
def accBeats (dSq : ℚ) : Option (SnapResult × ℚ) → Prop
  | none => True
  | some z => dSq < z.2

instance (dSq : ℚ) : (acc : Option (SnapResult × ℚ)) → Decidable (accBeats dSq acc)
  | none => isTrue trivial
  | some z => inferInstanceAs (Decidable (dSq < z.2))

/-- One iteration of the scan in `checkSnap` for the anchor
`(nodeId, side, dotPos)`: take it as the new best candidate when its
distance is below `snapDistance` and strictly below the running minimum.
`Math.sqrt(dSq) < bound` is rendered exactly as
`0 < bound ∧ dSq < bound * bound`, and the strict comparison against the
running minimum compares the squares (square roots compare the same way on
nonnegative inputs). -/
def stepAnchor (cfg : SnapConfig) (position : Point) (acc : Option (SnapResult × ℚ))
    (a : String × DotPosition × Point) : Option (SnapResult × ℚ) :=
  let dSq := distSq position a.2.2
  if (0 < cfg.snapDistance ∧ dSq < cfg.snapDistance * cfg.snapDistance) ∧ accBeats dSq acc then
    some (⟨a.1, a.2.1, a.2.2⟩, dSq)
  else acc

/-- `SnapHandler.checkSnap`: nothing when snapping is disabled; otherwise
scan every node except the excluded one, and every dot of each node in
insertion order, tracking the closest in-range anchor. `getDotPos` is the
injected position resolver (`(element, position) => Point` in the source,
here a function of the node and the side). -/
def checkSnap (cfg : SnapConfig) (getDotPos : NodeModel → DotPosition → Point)
    (nodes : List NodeModel) (position : Point) (excludeNodeId : String) : Option SnapResult :=
  if cfg.enabled = false then none
  else
    match nodes.foldl
      (fun acc node =>
        if node.id == excludeNodeId then acc
        else node.dotPositions.foldl
          (fun acc2 dp => stepAnchor cfg position acc2 (node.id, dp, getDotPos node dp)) acc)
      none with
    | none => none
    | some (r, _) => some r

/-- The anchors `checkSnap` scans, flattened in scan order (spec §4.3:
linear scan over all nodes except `excludeNode`, then over each node's
anchors). -/
def anchorsOf (getDotPos : NodeModel → DotPosition → Point) (excludeNodeId : String) :
    List NodeModel → List (String × DotPosition × Point)
  | [] => []
  | n :: ns =>
    (if n.id = excludeNodeId then []
     else n.dotPositions.map (fun dp => (n.id, dp, getDotPos n dp))) ++
      anchorsOf getDotPos excludeNodeId ns

/-- The flat form of the `checkSnap` scan over an anchor list. -/
def scanList (cfg : SnapConfig) (position : Point)
    (l : List (String × DotPosition × Point)) (acc : Option (SnapResult × ℚ)) :
    Option (SnapResult × ℚ) :=
  l.foldl (stepAnchor cfg position) acc

/-- Spec §4.2 anchor-side resolution rule, written from the spec's words:
`'both'` → `[left, right]`; an explicit array → filtered to the valid
sides, deduplicated keeping first occurrences, truncated to at most 2;
omitted → `[right]` when no node is currently registered, `[left]`
otherwise. -/
def specResolveAnchorSides (currentNodes : List NodeModel) (spec : Option DotSpec) :
    List DotPosition :=
  match spec with
  | some DotSpec.both => [DotPosition.left, DotPosition.right]
  | some (DotSpec.arr ps) => (dedupFirst (ps.filterMap rawToDot)).take 2
  | none => if currentNodes.isEmpty then [DotPosition.right] else [DotPosition.left]

/-- Everything of a node except its connection list (used to state that an
operation touches at most the connection registries). -/
def nodeShape (n : NodeModel) : String × Point × List DotPosition × Option String :=
  (n.id, n.pos, n.dotPositions, n.info)

/-- The event trace produced by disconnecting the listed connections one by
one (hook pair per connection, host notification unless silent). -/
def discTrace (silent : Bool) : List ConnectionModel → List Ev
  | [] => []
  | c :: l =>
    ([Ev.beforeDisconnectFired c.id, Ev.afterDisconnectFired c.id] ++
      (if silent then ([] : List Ev) else [Ev.disconnectNotified c.id])) ++ discTrace silent l

/-! ## Theorems -/

section HookIsolation

/-- Claim C4: a throwing callback is caught at the hook-runtime boundary and
is a no-op.  For a sequential hook the data passed on (and the final result)
is the value from before the throwing callback; for a preventable hook the
throw is non-prevention and the chain continues.  No exception propagates:
both `execute` functions are total. -/
theorem hook_error_isolation :
    (∀ (T : Type) (pre post : List (T → SeqOutcome T)) (cb : T → SeqOutcome T) (d : T),
      (∀ x, cb x = SeqOutcome.thrown) →
      seqExecute (pre ++ cb :: post) d = seqExecute (pre ++ post) d) ∧
    (∀ (T : Type) (pre post : List (T → PrevOutcome T)) (cb : T → PrevOutcome T) (d : T),
      (∀ x, cb x = PrevOutcome.thrown) →
      prevExecute (pre ++ cb :: post) d = prevExecute (pre ++ post) d) := by
  constructor
  · intro T pre post cb d h
    induction pre generalizing d with
    | nil => simp [seqExecute, h d]
    | cons c rest ih =>
      simp only [List.cons_append, seqExecute]
      cases c d <;> simp [ih]
  · intro T pre post cb d h
    induction pre generalizing d with
    | nil => simp [prevExecute, h d]
    | cons c rest ih =>
      simp only [List.cons_append, prevExecute]
      cases c d <;> simp [ih]

/-- Witness for C4 at concrete callbacks and data. -/
theorem hook_error_isolation_witness :
    seqExecute [fun x => SeqOutcome.ret (x + 1), fun _ => SeqOutcome.thrown,
        fun x => SeqOutcome.ret (x * 2)] (3 : Nat) =
      seqExecute [fun x => SeqOutcome.ret (x + 1), fun x => SeqOutcome.ret (x * 2)] 3 ∧
    prevExecute [fun _ => PrevOutcome.thrown, fun x => PrevOutcome.ret (x + 5)] (7 : Nat) =
      prevExecute [fun x => PrevOutcome.ret (x + 5)] 7 :=
  ⟨hook_error_isolation.1 Nat [fun x => SeqOutcome.ret (x + 1)]
      [fun x => SeqOutcome.ret (x * 2)] (fun _ => SeqOutcome.thrown) 3 (fun _ => rfl),
    hook_error_isolation.2 Nat [] [fun x => PrevOutcome.ret (x + 5)]
      (fun _ => PrevOutcome.thrown) 7 (fun _ => rfl)⟩

end HookIsolation

section ZoomAnchor

/-- Claim C5: with the current scale inside `[minZoom, maxZoom]` (and a
positive `minZoom`, as in every valid configuration), `zoomAtPoint` keeps
the world point under the anchor fixed: `screenToWorld` at the anchor is
unchanged by the zoom, even when the requested scale gets clamped. -/
theorem zoomAtPoint_anchors_cursor (cfg : ViewCfg) (vs : ViewState) (ns px py : ℚ)
    (hmin : 0 < cfg.minZoom) (hscale : cfg.minZoom ≤ vs.scale) :
    screenToWorld (zoomAtPoint cfg vs ns px py) px py = screenToWorld vs px py := by
  have hs : vs.scale ≠ 0 := ne_of_gt (lt_of_lt_of_le hmin hscale)
  have hc : clamp ns cfg.minZoom cfg.maxZoom ≠ 0 := by
    have : cfg.minZoom ≤ clamp ns cfg.minZoom cfg.maxZoom := le_max_left _ _
    exact ne_of_gt (lt_of_lt_of_le hmin this)
  simp only [screenToWorld, zoomAtPoint, Point.mk.injEq]
  constructor
  · field_simp
    ring
  · field_simp
    ring

/-- Witness for C5 at a concrete view state, zoom target and anchor. -/
theorem zoomAtPoint_anchors_cursor_witness :
    screenToWorld (zoomAtPoint ⟨1, 4⟩ ⟨2, 5, 7⟩ 8 30 40) 30 40 =
      screenToWorld ⟨2, 5, 7⟩ 30 40 :=
  zoomAtPoint_anchors_cursor ⟨1, 4⟩ ⟨2, 5, 7⟩ 8 30 40 (by simp) (by simp)

end ZoomAnchor

section ConnectClaims

/-- `matches` is symmetric in the query: a connection equivalent to
`(f, fp) → (t, tp)` is also equivalent to `(t, tp) → (f, fp)`. -/
theorem ConnectionModel.matches_swap (c : ConnectionModel) (f t : String)
    (fp tp : DotPosition) (h : c.matches f t fp tp = true) : c.matches t f tp fp = true := by
  simp only [ConnectionModel.matches, Bool.or_eq_true, Bool.and_eq_true, beq_iff_eq] at h ⊢
  tauto

/-- A found node carries the looked-up id. -/
theorem findNode_id {st : ConnState} {id : String} {n : NodeModel}
    (h : findNode st id = some n) : n.id = id := by
  simpa using List.find?_some h

/-- Claim C3: with callbacks `H1, H2` tapped in that order on
`beforeConnect`, if `H1` returns `false` on the connection parameters then
the connect aborts: no connection is created, the engine state is not
mutated, and only one callback (`H1`) is ever invoked, so `H2` never
executes. -/
theorem beforeConnect_veto_blocks (hooks : Hooks) (st : ConnState)
    (fromId toId : String) (aSide bSide : DotPosition) (nA nB : NodeModel)
    (H1 H2 : ConnectParams → PrevOutcome ConnectParams)
    (hhooks : hooks.beforeConnect = [H1, H2])
    (hA : findNode st fromId = some nA) (hB : findNode st toId = some nB)
    (haS : aSide ∈ nA.dotPositions) (hbS : bSide ∈ nB.dotPositions)
    (hH1 : H1 ⟨nA, nB, aSide, bSide⟩ = PrevOutcome.fls) :
    connect hooks st fromId toId (some aSide) (some bSide) false =
      (none, st, [Ev.blockedConnect]) ∧
    prevRunCount hooks.beforeConnect ⟨nA, nB, aSide, bSide⟩ = 1 := by
  constructor
  · simp [connect, hA, hB, createConnection, createWithDots, NodeModel.getDot, haS, hbS,
      hhooks, prevExecute, hH1, Option.bind]
  · simp [prevRunCount, hhooks, hH1]

/-- Witness for C3: a two-node engine, a vetoing first callback and a second
callback that would approve; the connect is blocked and only one callback
runs. -/
theorem beforeConnect_veto_blocks_witness :
    connect
      ⟨[], [], [fun _ => PrevOutcome.fls, fun p => PrevOutcome.ret p], [], [], [], [], []⟩
      ⟨[⟨"A", ⟨0, 0⟩, none, [DotPosition.right], []⟩,
        ⟨"B", ⟨9, 0⟩, none, [DotPosition.left], []⟩], [], ⟨1, 0, 0⟩, ⟨1, 4⟩, 0⟩
      "A" "B" (some DotPosition.right) (some DotPosition.left) false =
      (none,
        ⟨[⟨"A", ⟨0, 0⟩, none, [DotPosition.right], []⟩,
          ⟨"B", ⟨9, 0⟩, none, [DotPosition.left], []⟩], [], ⟨1, 0, 0⟩, ⟨1, 4⟩, 0⟩,
        [Ev.blockedConnect]) ∧
    prevRunCount [fun _ => PrevOutcome.fls, fun p => PrevOutcome.ret p]
      (⟨⟨"A", ⟨0, 0⟩, none, [DotPosition.right], []⟩,
        ⟨"B", ⟨9, 0⟩, none, [DotPosition.left], []⟩,
        DotPosition.right, DotPosition.left⟩ : ConnectParams) = 1 :=
  beforeConnect_veto_blocks
    ⟨[], [], [fun _ => PrevOutcome.fls, fun p => PrevOutcome.ret p], [], [], [], [], []⟩
    ⟨[⟨"A", ⟨0, 0⟩, none, [DotPosition.right], []⟩,
      ⟨"B", ⟨9, 0⟩, none, [DotPosition.left], []⟩], [], ⟨1, 0, 0⟩, ⟨1, 4⟩, 0⟩
    "A" "B" DotPosition.right DotPosition.left
    ⟨"A", ⟨0, 0⟩, none, [DotPosition.right], []⟩
    ⟨"B", ⟨9, 0⟩, none, [DotPosition.left], []⟩
    (fun _ => PrevOutcome.fls) (fun p => PrevOutcome.ret p)
    rfl rfl rfl (by decide) (by decide) rfl

/-- Claim C1: while a connection endpoint-equivalent to
`(A, aSide) → (B, bSide)` exists, both `connect(A, aSide, B, bSide)` and
`connect(B, bSide, A, aSide)` are rejected as duplicates: the call returns
nothing, the state is untouched, and only a warning is logged (the
functions are total, so no exception is possible). -/
theorem connect_duplicate_rejected (hooks : Hooks) (st : ConnState) (A B : String)
    (aSide bSide : DotPosition) (nA nB : NodeModel) (c : ConnectionModel)
    (hbc : hooks.beforeConnect = [])
    (hA : findNode st A = some nA) (hB : findNode st B = some nB)
    (haS : aSide ∈ nA.dotPositions) (hbS : bSide ∈ nB.dotPositions)
    (hmem : c ∈ st.connections) (hm : c.matches A B aSide bSide = true) :
    connect hooks st A B (some aSide) (some bSide) false = (none, st, [Ev.warnDuplicate]) ∧
    connect hooks st B A (some bSide) (some aSide) false = (none, st, [Ev.warnDuplicate]) := by
  have hidA : nA.id = A := findNode_id hA
  have hidB : nB.id = B := findNode_id hB
  have h1 : ∃ d, st.connections.find? (fun x => x.matches nA.id nB.id aSide bSide) = some d := by
    rw [hidA, hidB]
    rw [← Option.isSome_iff_exists, List.find?_isSome]
    exact ⟨c, hmem, hm⟩
  have h2 : ∃ d, st.connections.find? (fun x => x.matches nB.id nA.id bSide aSide) = some d := by
    rw [hidA, hidB]
    rw [← Option.isSome_iff_exists, List.find?_isSome]
    exact ⟨c, hmem, ConnectionModel.matches_swap c A B aSide bSide hm⟩
  obtain ⟨d1, hd1⟩ := h1
  obtain ⟨d2, hd2⟩ := h2
  constructor
  · simp [connect, hA, hB, createConnection, createWithDots, createApproved,
      NodeModel.getDot, haS, hbS, hbc, prevExecute, hd1, Option.bind]
  · simp [connect, hA, hB, createConnection, createWithDots, createApproved,
      NodeModel.getDot, haS, hbS, hbc, prevExecute, hd2, Option.bind]

/-- Witness for C1: an engine holding the connection `A.right → B.left`;
both re-connect orders are rejected without touching the state. -/
theorem connect_duplicate_rejected_witness :
    connect emptyHooks
      ⟨[⟨"A", ⟨0, 0⟩, none, [DotPosition.right], ["c1"]⟩,
        ⟨"B", ⟨9, 0⟩, none, [DotPosition.left], ["c1"]⟩],
       [⟨"c1", "A", "B", DotPosition.right, DotPosition.left⟩], ⟨1, 0, 0⟩, ⟨1, 4⟩, 0⟩
      "A" "B" (some DotPosition.right) (some DotPosition.left) false =
      (none,
        ⟨[⟨"A", ⟨0, 0⟩, none, [DotPosition.right], ["c1"]⟩,
          ⟨"B", ⟨9, 0⟩, none, [DotPosition.left], ["c1"]⟩],
         [⟨"c1", "A", "B", DotPosition.right, DotPosition.left⟩], ⟨1, 0, 0⟩, ⟨1, 4⟩, 0⟩,
        [Ev.warnDuplicate]) ∧
    connect emptyHooks
      ⟨[⟨"A", ⟨0, 0⟩, none, [DotPosition.right], ["c1"]⟩,
        ⟨"B", ⟨9, 0⟩, none, [DotPosition.left], ["c1"]⟩],
       [⟨"c1", "A", "B", DotPosition.right, DotPosition.left⟩], ⟨1, 0, 0⟩, ⟨1, 4⟩, 0⟩
      "B" "A" (some DotPosition.left) (some DotPosition.right) false =
      (none,
        ⟨[⟨"A", ⟨0, 0⟩, none, [DotPosition.right], ["c1"]⟩,
          ⟨"B", ⟨9, 0⟩, none, [DotPosition.left], ["c1"]⟩],
         [⟨"c1", "A", "B", DotPosition.right, DotPosition.left⟩], ⟨1, 0, 0⟩, ⟨1, 4⟩, 0⟩,
        [Ev.warnDuplicate]) :=
  connect_duplicate_rejected emptyHooks
    ⟨[⟨"A", ⟨0, 0⟩, none, [DotPosition.right], ["c1"]⟩,
      ⟨"B", ⟨9, 0⟩, none, [DotPosition.left], ["c1"]⟩],
     [⟨"c1", "A", "B", DotPosition.right, DotPosition.left⟩], ⟨1, 0, 0⟩, ⟨1, 4⟩, 0⟩
    "A" "B" DotPosition.right DotPosition.left
    ⟨"A", ⟨0, 0⟩, none, [DotPosition.right], ["c1"]⟩
    ⟨"B", ⟨9, 0⟩, none, [DotPosition.left], ["c1"]⟩
    ⟨"c1", "A", "B", DotPosition.right, DotPosition.left⟩
    rfl rfl rfl (by decide) (by decide) (by decide) (by decide)

end ConnectClaims

section RegisterClaims

/-- Counterexample to claim C8: the code keys the omitted-`anchorSides`
default on the *current* node count, not on "first-ever registered".  After
registering and unregistering node `A`, node `B` — not the first-ever
registered node — still receives the default `[right]`, where the claim
demands `[left]` for every subsequently registered node. -/
theorem registerNode_default_side_cex :
    ((registerNode emptyHooks
        (unregisterNode emptyHooks
          (registerNode emptyHooks ⟨[], [], ⟨1, 0, 0⟩, ⟨1, 4⟩, 0⟩ "A" ⟨0, 0⟩
            ⟨none, none⟩).2 "A").2.1
        "B" ⟨0, 0⟩ ⟨none, none⟩).1).map NodeModel.dotPositions =
      some [DotPosition.right] ∧
    some [DotPosition.right] ≠ some [DotPosition.left] := by
  constructor
  · rfl
  · decide

/-- Claim C8 as amended: anchor-side resolution is `'both'` → `[left,
right]`; explicit array → filtered to valid sides, deduplicated (first
occurrences), truncated to 2; omitted → `[right]` when no node is
*currently* registered and `[left]` otherwise (the code tests
`nodes.length === 0`, not "first-ever"). -/
theorem registerNode_anchor_side_resolution (hooks : Hooks) (st : ConnState)
    (id : String) (pos : Point) (opts : NodeOptions)
    (hreg : hooks.beforeNodeRegister = []) (hfresh : findNode st id = none) :
    ∃ n, (registerNode hooks st id pos opts).1 = some n ∧
      n.dotPositions = specResolveAnchorSides st.nodes opts.dotPositions := by
  rcases opts with ⟨info, spec⟩
  rcases spec with _ | sp
  · have hres : (registerNode hooks st id pos ⟨info, none⟩).1 =
        some ⟨id, pos, info,
          (dedupFirst [if st.nodes.isEmpty then DotPosition.right else DotPosition.left]).take 2,
          []⟩ := by
      simp [registerNode, hfresh, hreg, prevExecute]
    refine ⟨_, hres, ?_⟩
    by_cases h : st.nodes.isEmpty <;> simp [specResolveAnchorSides, h, dedupFirst]
  · rcases sp with _ | ps
    · have hres : (registerNode hooks st id pos ⟨info, some DotSpec.both⟩).1 =
          some ⟨id, pos, info,
            (dedupFirst [DotPosition.left, DotPosition.right]).take 2, []⟩ := by
        simp [registerNode, hfresh, hreg, prevExecute]
      refine ⟨_, hres, ?_⟩
      simp only [specResolveAnchorSides]
      decide
    · have hres : (registerNode hooks st id pos ⟨info, some (DotSpec.arr ps)⟩).1 =
          some ⟨id, pos, info, (dedupFirst (ps.filterMap rawToDot)).take 2, []⟩ := by
        simp [registerNode, hfresh, hreg, prevExecute]
      exact ⟨_, hres, rfl⟩

/-- Witness for the amended C8 at a concrete fresh engine and an explicit
array option with an invalid entry and a duplicate. -/
theorem registerNode_anchor_side_resolution_witness :
    (∃ n, (registerNode emptyHooks ⟨[], [], ⟨1, 0, 0⟩, ⟨1, 4⟩, 0⟩ "A" ⟨0, 0⟩
        ⟨none, some (DotSpec.arr [RawSide.left, RawSide.invalid, RawSide.left,
          RawSide.right])⟩).1 = some n ∧
      n.dotPositions = specResolveAnchorSides ([] : List NodeModel)
        (some (DotSpec.arr [RawSide.left, RawSide.invalid, RawSide.left, RawSide.right]))) :=
  registerNode_anchor_side_resolution emptyHooks ⟨[], [], ⟨1, 0, 0⟩, ⟨1, 4⟩, 0⟩ "A" ⟨0, 0⟩
    ⟨none, some (DotSpec.arr [RawSide.left, RawSide.invalid, RawSide.left, RawSide.right])⟩
    rfl rfl

end RegisterClaims

section AfterConnectClaims

/-- Decomposition of membership in `addConnToNode`: every node of the
updated list stems from a node of the input list with the same id; a node
carrying the target id now contains the connection id, and any other node
is untouched. -/
theorem mem_addConnToNode {nodes : List NodeModel} {nid cid : String} {n : NodeModel}
    (h : n ∈ addConnToNode nodes nid cid) :
    ∃ m ∈ nodes, n.id = m.id ∧ (n.id = nid → cid ∈ n.connections) ∧ (n.id ≠ nid → n = m) := by
  unfold addConnToNode at h
  obtain ⟨m, hm, rfl⟩ := List.mem_map.mp h
  refine ⟨m, hm, ?_, ?_, ?_⟩ <;>
    by_cases h1 : m.id = nid <;> by_cases h2 : cid ∈ m.connections <;> simp [h1, h2]

/-- The approved-creation tail puts the new connection into the engine list
and into the connection registry of every engine node carrying an endpoint
id. -/
theorem createApproved_spec {hooks : Hooks} {st : ConnState} {q : ConnectParams}
    {silent : Bool} {conn : ConnectionModel} {st2 : ConnState} {evs : List Ev}
    (h : createApproved hooks st q silent = (some conn, st2, evs)) :
    conn ∈ st2.connections ∧
    ∀ n ∈ st2.nodes, (n.id = conn.fromNodeId ∨ n.id = conn.toNodeId) →
      conn.id ∈ n.connections := by
  unfold createApproved at h
  split at h
  · simp at h
  · rw [Prod.mk.injEq, Prod.mk.injEq] at h
    obtain ⟨hconn, hst, -⟩ := h
    rw [Option.some.injEq] at hconn
    subst hconn
    subst hst
    constructor
    · simp
    · intro n hn hid
      obtain ⟨m, hm, hidm, hself, hkeep⟩ := mem_addConnToNode hn
      rcases hid with hid | hid
      · by_cases hsame : n.id = q.toNode.id
        · exact hself hsame
        · have hnm := hkeep hsame
          subst hnm
          obtain ⟨m', hm', _, hself', _⟩ := mem_addConnToNode hm
          exact hself' hid
      · exact hself hid

/-- Claim C9: once `createConnection` reports a created connection, the
connection is in the engine's list and registered on every engine node
carrying either endpoint id — regardless of the registered hooks, in
particular for every `afterConnect` callback list: the hook's return value
is discarded, so no `afterConnect` result (including a sentinel `false`,
modelled by an arbitrary outcome) can undo the creation. -/
theorem afterConnect_cannot_undo (hooks : Hooks) (st : ConnState)
    (fromNode toNode : NodeModel) (fromDotIn toDotIn : Option DotPosition) (silent : Bool)
    (conn : ConnectionModel) (st2 : ConnState) (evs : List Ev)
    (h : createConnection hooks st fromNode toNode fromDotIn toDotIn silent =
      (some conn, st2, evs)) :
    conn ∈ st2.connections ∧
    ∀ n ∈ st2.nodes, (n.id = conn.fromNodeId ∨ n.id = conn.toNodeId) →
      conn.id ∈ n.connections := by
  simp only [createConnection] at h
  split at h
  · rename_i fd td _ _
    simp only [createWithDots] at h
    split at h
    · simp at h
    · exact createApproved_spec h
  all_goals simp at h

/-- Witness for C9: a concrete creation with an `afterConnect` callback
that returns a different connection value; the created connection is still
registered everywhere. -/
theorem afterConnect_cannot_undo_witness :
    (⟨"A-B-right-left-0", "A", "B", DotPosition.right, DotPosition.left⟩ :
        ConnectionModel) ∈
      (ConnState.mk
        [⟨"A", ⟨0, 0⟩, none, [DotPosition.right], ["A-B-right-left-0"]⟩,
         ⟨"B", ⟨9, 0⟩, none, [DotPosition.left], ["A-B-right-left-0"]⟩]
        [⟨"A-B-right-left-0", "A", "B", DotPosition.right, DotPosition.left⟩]
        ⟨1, 0, 0⟩ ⟨1, 4⟩ 0).connections ∧
    ∀ n ∈ (ConnState.mk
        [⟨"A", ⟨0, 0⟩, none, [DotPosition.right], ["A-B-right-left-0"]⟩,
         ⟨"B", ⟨9, 0⟩, none, [DotPosition.left], ["A-B-right-left-0"]⟩]
        [⟨"A-B-right-left-0", "A", "B", DotPosition.right, DotPosition.left⟩]
        ⟨1, 0, 0⟩ ⟨1, 4⟩ 0).nodes,
      (n.id = (⟨"A-B-right-left-0", "A", "B", DotPosition.right, DotPosition.left⟩ :
          ConnectionModel).fromNodeId ∨
        n.id = (⟨"A-B-right-left-0", "A", "B", DotPosition.right, DotPosition.left⟩ :
          ConnectionModel).toNodeId) →
      (⟨"A-B-right-left-0", "A", "B", DotPosition.right, DotPosition.left⟩ :
          ConnectionModel).id ∈ n.connections :=
  afterConnect_cannot_undo
    ⟨[], [], [], [fun _ => SeqOutcome.ret ⟨"bogus", "x", "y", DotPosition.left,
      DotPosition.left⟩], [], [], [], []⟩
    ⟨[⟨"A", ⟨0, 0⟩, none, [DotPosition.right], []⟩,
      ⟨"B", ⟨9, 0⟩, none, [DotPosition.left], []⟩], [], ⟨1, 0, 0⟩, ⟨1, 4⟩, 0⟩
    ⟨"A", ⟨0, 0⟩, none, [DotPosition.right], []⟩
    ⟨"B", ⟨9, 0⟩, none, [DotPosition.left], []⟩
    (some DotPosition.right) (some DotPosition.left) true
    ⟨"A-B-right-left-0", "A", "B", DotPosition.right, DotPosition.left⟩
    (ConnState.mk
      [⟨"A", ⟨0, 0⟩, none, [DotPosition.right], ["A-B-right-left-0"]⟩,
       ⟨"B", ⟨9, 0⟩, none, [DotPosition.left], ["A-B-right-left-0"]⟩]
      [⟨"A-B-right-left-0", "A", "B", DotPosition.right, DotPosition.left⟩]
      ⟨1, 0, 0⟩ ⟨1, 4⟩ 0)
    [] rfl

end AfterConnectClaims

section FrameClaims

/-- `addConnToNode` only touches connection registries: the id / position /
dot-side / info projection of the node list is unchanged. -/
theorem nodeShape_addConnToNode (nodes : List NodeModel) (nid cid : String) :
    (addConnToNode nodes nid cid).map nodeShape = nodes.map nodeShape := by
  induction nodes with
  | nil => rfl
  | cons m ms ih =>
    simp only [addConnToNode, List.map_cons] at ih ⊢
    rw [ih]
    congr 1
    by_cases h1 : m.id = nid <;> by_cases h2 : cid ∈ m.connections <;> simp [nodeShape, h1, h2]

/-- `removeConnFromNode` only touches connection registries. -/
theorem nodeShape_removeConnFromNode (nodes : List NodeModel) (nid cid : String) :
    (removeConnFromNode nodes nid cid).map nodeShape = nodes.map nodeShape := by
  induction nodes with
  | nil => rfl
  | cons m ms ih =>
    simp only [removeConnFromNode, List.map_cons] at ih ⊢
    rw [ih]
    congr 1
    by_cases h1 : m.id = nid <;> simp [nodeShape, h1]

/-- `disconnectOne` does not change any node's shape. -/
theorem nodeShape_disconnectOne (hooks : Hooks) (st : ConnState) (cid : String) (s : Bool) :
    ((disconnectOne hooks st cid s).1).nodes.map nodeShape = st.nodes.map nodeShape := by
  unfold disconnectOne
  split
  · rfl
  · rename_i conn hfind
    by_cases hp : (prevExecute hooks.beforeDisconnect conn).prevented = true <;>
      simp [hp, nodeShape_removeConnFromNode]

/-- A disconnect sweep does not change any node's shape. -/
theorem nodeShape_discStepFold (hooks : Hooks) (s : Bool) (l : List ConnectionModel) :
    ∀ acc : ConnState × List Ev,
    ((l.foldl (discStep hooks s) acc).1).nodes.map nodeShape = (acc.1).nodes.map nodeShape := by
  induction l with
  | nil => intro acc; rfl
  | cons c cl ih =>
    intro acc
    rw [List.foldl_cons, ih]
    simp [discStep, nodeShape_disconnectOne]

/-- `createConnection` does not change any node's shape. -/
theorem nodeShape_createConnection (hooks : Hooks) (st : ConnState)
    (fn tn : NodeModel) (fdi tdi : Option DotPosition) (s : Bool) :
    (((createConnection hooks st fn tn fdi tdi s).2.1).nodes).map nodeShape =
      st.nodes.map nodeShape := by
  simp only [createConnection]
  split
  · simp only [createWithDots]
    split
    · rfl
    · unfold createApproved
      split
      · rfl
      · simp [nodeShape_addConnToNode]
  all_goals rfl

/-- One `load` recreation step does not change any node's shape. -/
theorem nodeShape_loadConnStep (hooks : Hooks) (s : Bool)
    (acc : ConnState × List LoadWarning) (cs : ConnectionState) :
    (((loadConnStep hooks s acc cs).1).nodes).map nodeShape = ((acc.1).nodes).map nodeShape := by
  unfold loadConnStep
  split
  · rfl
  · split
    · rfl
    · split
      · rfl
      · split
        · rfl
        · simp [nodeShape_createConnection]

/-- The whole `load` recreation loop does not change any node's shape. -/
theorem nodeShape_loadFold (hooks : Hooks) (s : Bool) (l : List ConnectionState) :
    ∀ acc : ConnState × List LoadWarning,
    (((l.foldl (loadConnStep hooks s) acc).1).nodes).map nodeShape =
      ((acc.1).nodes).map nodeShape := by
  induction l with
  | nil => intro acc; rfl
  | cons cs cl ih =>
    intro acc
    rw [List.foldl_cons, ih, nodeShape_loadConnStep]

/-- `load` does not change any node's shape. -/
theorem nodeShape_load (hooks : Hooks) (st : ConnState) (state : ConnectorState) (s : Bool) :
    ((load hooks st state s).1).nodes.map nodeShape = st.nodes.map nodeShape := by
  simp only [load]
  rw [nodeShape_loadFold]
  simp only [setViewStateOp, disconnectAll]
  rw [nodeShape_discStepFold]

/-- Claim C10: `load` restores view state and connections but never writes
a registered node's element position — for every hook configuration, every
starting state and every serialized state, the `(id, position)` projection
of the node list is exactly what it was before `load`. -/
theorem load_preserves_node_positions (hooks : Hooks) (st : ConnState)
    (state : ConnectorState) (silent : Bool) :
    ((load hooks st state silent).1).nodes.map (fun n => (n.id, n.pos)) =
      st.nodes.map (fun n => (n.id, n.pos)) := by
  have h := nodeShape_load hooks st state silent
  have e : ∀ ns : List NodeModel, ns.map (fun n => (n.id, n.pos)) =
      (ns.map nodeShape).map (fun t => (t.1, t.2.1)) := by
    intro ns
    rw [List.map_map]
    rfl
  rw [e, e, h]

end FrameClaims

section CascadeClaims

/-- With pairwise-distinct connection ids, looking a member connection up
by its id finds exactly that connection. -/
theorem find?_id_unique (l : List ConnectionModel)
    (hnd : (l.map ConnectionModel.id).Nodup) (c : ConnectionModel) (hc : c ∈ l) :
    l.find? (fun x => x.id == c.id) = some c := by
  induction l with
  | nil => cases hc
  | cons a l ih =>
    rcases List.mem_cons.mp hc with rfl | hc'
    · exact List.find?_cons_of_pos _ (by simp)
    · have hne : (a.id == c.id) = false := by
        refine beq_eq_false_iff_ne.mpr ?_
        intro he
        apply (List.nodup_cons.mp hnd).1
        rw [he]
        exact List.mem_map_of_mem _ hc'
      rw [List.find?_cons]
      simp only [hne, cond_false]
      exact ih (List.nodup_cons.mp hnd).2 hc'

/-- With pairwise-distinct connection ids, erasing a member connection by
its id removes exactly that connection. -/
theorem mem_eraseP_id (l : List ConnectionModel) (c : ConnectionModel)
    (hnd : (l.map ConnectionModel.id).Nodup) (hc : c ∈ l) :
    ∀ x, x ∈ l.eraseP (fun y => y.id == c.id) ↔ (x ∈ l ∧ x ≠ c) := by
  induction l with
  | nil => cases hc
  | cons a l ih =>
    intro x
    rcases List.mem_cons.mp hc with rfl | hc'
    · rw [List.eraseP_cons_of_pos (by simp)]
      constructor
      · intro hx
        refine ⟨List.mem_cons_of_mem _ hx, ?_⟩
        rintro rfl
        exact (List.nodup_cons.mp hnd).1 (List.mem_map_of_mem _ hx)
      · rintro ⟨hx, hne⟩
        rcases List.mem_cons.mp hx with rfl | h
        · exact absurd rfl hne
        · exact h
    · have hane : (a.id == c.id) = false := by
        refine beq_eq_false_iff_ne.mpr ?_
        intro he
        apply (List.nodup_cons.mp hnd).1
        rw [he]
        exact List.mem_map_of_mem _ hc'
      have hac : a ≠ c := by
        intro he
        rw [beq_eq_false_iff_ne] at hane
        exact hane (by rw [he])
      rw [List.eraseP_cons, hane, cond_false]
      simp only [List.mem_cons, ih (List.nodup_cons.mp hnd).2 hc']
      constructor
      · rintro (rfl | ⟨hx, hne⟩)
        · exact ⟨Or.inl rfl, hac⟩
        · exact ⟨Or.inr hx, hne⟩
      · rintro ⟨rfl | hx, hne⟩
        · exact Or.inl rfl
        · exact Or.inr ⟨hx, hne⟩

/-- Erasing keeps the connection ids pairwise distinct. -/
theorem nodup_eraseP_id (l : List ConnectionModel) (p : ConnectionModel → Bool)
    (hnd : (l.map ConnectionModel.id).Nodup) :
    ((l.eraseP p).map ConnectionModel.id).Nodup :=
  hnd.sublist (List.Sublist.map _ (List.eraseP_sublist _))

/-- `disconnectOne` by the id of a present connection, with no
`beforeDisconnect` callback registered: the connection is removed and its
hook pair fires. -/
theorem disconnectOne_clean (hooks : Hooks) (st : ConnState) (c : ConnectionModel) (s : Bool)
    (hbd : hooks.beforeDisconnect = [])
    (hmem : c ∈ st.connections)
    (hnd : (st.connections.map ConnectionModel.id).Nodup) :
    (disconnectOne hooks st c.id s).1.connections =
      st.connections.eraseP (fun y => y.id == c.id) ∧
    (disconnectOne hooks st c.id s).2 =
      [Ev.beforeDisconnectFired c.id, Ev.afterDisconnectFired c.id] ++
        (if s then ([] : List Ev) else [Ev.disconnectNotified c.id]) := by
  unfold disconnectOne
  rw [find?_id_unique st.connections hnd c hmem]
  simp [hbd, prevExecute]

/-- Cascade sweep over a snapshot `l` of distinct present connections with
no `beforeDisconnect` callback: afterwards exactly the snapshot is gone,
and the trace is one `beforeDisconnect`/`afterDisconnect` pair per snapshot
entry, in order. -/
theorem cascade_clean (hooks : Hooks) (s : Bool) (hbd : hooks.beforeDisconnect = []) :
    ∀ (l : List ConnectionModel) (st : ConnState) (evs0 : List Ev),
    (∀ c ∈ l, c ∈ st.connections) →
    ((st.connections.map ConnectionModel.id).Nodup) →
    ((l.map ConnectionModel.id).Nodup) →
    (∀ x, x ∈ ((l.foldl (discStep hooks s) (st, evs0)).1).connections ↔
      (x ∈ st.connections ∧ x ∉ l)) ∧
    (l.foldl (discStep hooks s) (st, evs0)).2 = evs0 ++ discTrace s l := by
  intro l
  induction l with
  | nil =>
    intro st evs0 _ _ _
    refine ⟨fun x => by simp, by simp [discTrace]⟩
  | cons c0 l ih =>
    intro st evs0 hsub hndst hndl
    have hc0 : c0 ∈ st.connections := hsub c0 (List.mem_cons_self _ _)
    obtain ⟨hconn1, hevs1⟩ := disconnectOne_clean hooks st c0 s hbd hc0 hndst
    rw [List.foldl_cons]
    have hstep : discStep hooks s (st, evs0) c0 =
        ((disconnectOne hooks st c0.id s).1, evs0 ++ (disconnectOne hooks st c0.id s).2) := rfl
    rw [hstep]
    have hmem1 : ∀ x, x ∈ (disconnectOne hooks st c0.id s).1.connections ↔
        (x ∈ st.connections ∧ x ≠ c0) := by
      intro x
      rw [hconn1]
      exact mem_eraseP_id st.connections c0 hndst hc0 x
    have hnd1 : ((disconnectOne hooks st c0.id s).1.connections.map ConnectionModel.id).Nodup := by
      rw [hconn1]
      exact nodup_eraseP_id _ _ hndst
    have hsub1 : ∀ c ∈ l, c ∈ (disconnectOne hooks st c0.id s).1.connections := by
      intro c hcl
      rw [hmem1]
      refine ⟨hsub c (List.mem_cons_of_mem _ hcl), ?_⟩
      rintro rfl
      exact (List.nodup_cons.mp hndl).1 (List.mem_map_of_mem _ hcl)
    obtain ⟨hmemF, hevF⟩ := ih (disconnectOne hooks st c0.id s).1
      (evs0 ++ (disconnectOne hooks st c0.id s).2) hsub1 hnd1 (List.nodup_cons.mp hndl).2
    constructor
    · intro x
      rw [hmemF x, hmem1 x]
      simp only [List.mem_cons]
      tauto
    · rw [hevF, hevs1]
      simp [discTrace, List.append_assoc]

/-- The sweep trace fires `beforeDisconnect` once per snapshot entry id. -/
theorem discTrace_count_before (s : Bool) (l : List ConnectionModel) (cid : String) :
    (discTrace s l).count (Ev.beforeDisconnectFired cid) =
      (l.map ConnectionModel.id).count cid := by
  induction l with
  | nil => rfl
  | cons c l ih =>
    cases s <;>
      (simp only [discTrace, List.count_append, List.count_cons, List.count_nil, ih,
        List.map_cons]
       by_cases hc : c.id = cid <;> simp [hc, Nat.add_comm])

/-- The sweep trace fires `afterDisconnect` once per snapshot entry id. -/
theorem discTrace_count_after (s : Bool) (l : List ConnectionModel) (cid : String) :
    (discTrace s l).count (Ev.afterDisconnectFired cid) =
      (l.map ConnectionModel.id).count cid := by
  induction l with
  | nil => rfl
  | cons c l ih =>
    cases s <;>
      (simp only [discTrace, List.count_append, List.count_cons, List.count_nil, ih,
        List.map_cons]
       by_cases hc : c.id = cid <;> simp [hc, Nat.add_comm])

end CascadeClaims

section CascadeClaimC2

/-- Counterexample to claim C2 as stated: a `beforeDisconnect` callback
that vetoes every disconnect.  `unregisterNode("A")` still returns `true`
and removes the node, yet the connection touching `"A"` survives the
cascade — so "zero Connections reference `id` afterward" does not hold for
every engine state. -/
theorem unregisterNode_cascade_veto_cex :
    (unregisterNode
      ⟨[], [], [], [], [fun _ => PrevOutcome.fls], [], [], []⟩
      ⟨[⟨"A", ⟨0, 0⟩, none, [DotPosition.right], ["c1"]⟩,
        ⟨"B", ⟨9, 0⟩, none, [DotPosition.left], ["c1"]⟩],
       [⟨"c1", "A", "B", DotPosition.right, DotPosition.left⟩], ⟨1, 0, 0⟩, ⟨1, 4⟩, 0⟩
      "A").1 = true ∧
    (unregisterNode
      ⟨[], [], [], [], [fun _ => PrevOutcome.fls], [], [], []⟩
      ⟨[⟨"A", ⟨0, 0⟩, none, [DotPosition.right], ["c1"]⟩,
        ⟨"B", ⟨9, 0⟩, none, [DotPosition.left], ["c1"]⟩],
       [⟨"c1", "A", "B", DotPosition.right, DotPosition.left⟩], ⟨1, 0, 0⟩, ⟨1, 4⟩, 0⟩
      "A").2.1.connections =
      [⟨"c1", "A", "B", DotPosition.right, DotPosition.left⟩] ∧
    (⟨"c1", "A", "B", DotPosition.right, DotPosition.left⟩ :
      ConnectionModel).fromNodeId = "A" := by
  refine ⟨rfl, rfl, rfl⟩

/-- Claim C2 as amended: provided no `beforeDisconnect` callback vetoes
(in particular with no callbacks registered) and connection ids are
distinct, `unregisterNode(id)` returns `true`, afterwards no connection
references `id`, and each connection touching `id` fired its
`beforeDisconnect`/`afterDisconnect` pair exactly once. -/
theorem unregisterNode_cascade_clean (hooks : Hooks) (st : ConnState) (nodeId : String)
    (node : NodeModel)
    (hbnr : hooks.beforeNodeRemove = []) (hbd : hooks.beforeDisconnect = [])
    (hfind : findNode st nodeId = some node)
    (hnd : (st.connections.map ConnectionModel.id).Nodup) :
    (unregisterNode hooks st nodeId).1 = true ∧
    (∀ c ∈ (unregisterNode hooks st nodeId).2.1.connections,
      ¬(c.fromNodeId = nodeId ∨ c.toNodeId = nodeId)) ∧
    (∀ c ∈ st.connections, (c.fromNodeId = nodeId ∨ c.toNodeId = nodeId) →
      (unregisterNode hooks st nodeId).2.2.count (Ev.beforeDisconnectFired c.id) = 1 ∧
      (unregisterNode hooks st nodeId).2.2.count (Ev.afterDisconnectFired c.id) = 1) := by
  have htsub : ∀ c ∈ st.connections.filter
      (fun c => c.fromNodeId == nodeId || c.toNodeId == nodeId), c ∈ st.connections :=
    fun c hc => (List.mem_filter.mp hc).1
  have htnd : ((st.connections.filter
      (fun c => c.fromNodeId == nodeId || c.toNodeId == nodeId)).map
        ConnectionModel.id).Nodup :=
    hnd.sublist (List.Sublist.map _ (List.filter_sublist _))
  obtain ⟨hmem, hev⟩ := cascade_clean hooks false hbd
    (st.connections.filter (fun c => c.fromNodeId == nodeId || c.toNodeId == nodeId))
    st [] htsub hnd htnd
  have hu : unregisterNode hooks st nodeId =
      (true,
        { ((st.connections.filter
            (fun c => c.fromNodeId == nodeId || c.toNodeId == nodeId)).foldl
              (discStep hooks false) (st, ([] : List Ev))).1 with
          nodes := (((st.connections.filter
            (fun c => c.fromNodeId == nodeId || c.toNodeId == nodeId)).foldl
              (discStep hooks false) (st, ([] : List Ev))).1).nodes.eraseP
            (fun n => n.id == nodeId) },
        ((st.connections.filter
          (fun c => c.fromNodeId == nodeId || c.toNodeId == nodeId)).foldl
            (discStep hooks false) (st, ([] : List Ev))).2) := by
    unfold unregisterNode
    rw [hfind]
    simp [hbnr, prevExecute]
  rw [hu]
  refine ⟨rfl, ?_, ?_⟩
  · intro c hc
    have hc' := (hmem c).mp hc
    intro href
    apply hc'.2
    rw [List.mem_filter]
    refine ⟨hc'.1, ?_⟩
    rcases href with h | h <;> simp [h]
  · intro c hc href
    have hcf : c ∈ st.connections.filter
        (fun c => c.fromNodeId == nodeId || c.toNodeId == nodeId) := by
      rw [List.mem_filter]
      refine ⟨hc, ?_⟩
      rcases href with h | h <;> simp [h]
    have hcid : c.id ∈ (st.connections.filter
        (fun c => c.fromNodeId == nodeId || c.toNodeId == nodeId)).map
          ConnectionModel.id := List.mem_map_of_mem _ hcf
    constructor
    · rw [hev, List.nil_append, discTrace_count_before]
      simpa using List.count_eq_one_of_mem htnd hcid
    · rw [hev, List.nil_append, discTrace_count_after]
      simpa using List.count_eq_one_of_mem htnd hcid

/-- Witness for the amended C2 at a concrete two-node engine with one
connection and no hooks. -/
theorem unregisterNode_cascade_clean_witness :
    (unregisterNode emptyHooks
      ⟨[⟨"A", ⟨0, 0⟩, none, [DotPosition.right], ["c1"]⟩,
        ⟨"B", ⟨9, 0⟩, none, [DotPosition.left], ["c1"]⟩],
       [⟨"c1", "A", "B", DotPosition.right, DotPosition.left⟩], ⟨1, 0, 0⟩, ⟨1, 4⟩, 0⟩
      "A").1 = true ∧
    (∀ c ∈ (unregisterNode emptyHooks
      ⟨[⟨"A", ⟨0, 0⟩, none, [DotPosition.right], ["c1"]⟩,
        ⟨"B", ⟨9, 0⟩, none, [DotPosition.left], ["c1"]⟩],
       [⟨"c1", "A", "B", DotPosition.right, DotPosition.left⟩], ⟨1, 0, 0⟩, ⟨1, 4⟩, 0⟩
      "A").2.1.connections,
      ¬(c.fromNodeId = "A" ∨ c.toNodeId = "A")) ∧
    (∀ c ∈ (ConnState.mk
        [⟨"A", ⟨0, 0⟩, none, [DotPosition.right], ["c1"]⟩,
         ⟨"B", ⟨9, 0⟩, none, [DotPosition.left], ["c1"]⟩]
        [⟨"c1", "A", "B", DotPosition.right, DotPosition.left⟩]
        ⟨1, 0, 0⟩ ⟨1, 4⟩ 0).connections,
      (c.fromNodeId = "A" ∨ c.toNodeId = "A") →
      (unregisterNode emptyHooks
        ⟨[⟨"A", ⟨0, 0⟩, none, [DotPosition.right], ["c1"]⟩,
          ⟨"B", ⟨9, 0⟩, none, [DotPosition.left], ["c1"]⟩],
         [⟨"c1", "A", "B", DotPosition.right, DotPosition.left⟩], ⟨1, 0, 0⟩, ⟨1, 4⟩, 0⟩
        "A").2.2.count (Ev.beforeDisconnectFired c.id) = 1 ∧
      (unregisterNode emptyHooks
        ⟨[⟨"A", ⟨0, 0⟩, none, [DotPosition.right], ["c1"]⟩,
          ⟨"B", ⟨9, 0⟩, none, [DotPosition.left], ["c1"]⟩],
         [⟨"c1", "A", "B", DotPosition.right, DotPosition.left⟩], ⟨1, 0, 0⟩, ⟨1, 4⟩, 0⟩
        "A").2.2.count (Ev.afterDisconnectFired c.id) = 1) :=
  unregisterNode_cascade_clean emptyHooks
    ⟨[⟨"A", ⟨0, 0⟩, none, [DotPosition.right], ["c1"]⟩,
      ⟨"B", ⟨9, 0⟩, none, [DotPosition.left], ["c1"]⟩],
     [⟨"c1", "A", "B", DotPosition.right, DotPosition.left⟩], ⟨1, 0, 0⟩, ⟨1, 4⟩, 0⟩
    "A" ⟨"A", ⟨0, 0⟩, none, [DotPosition.right], ["c1"]⟩
    rfl rfl rfl (by decide)

end CascadeClaimC2

section RoundTripClaims

/-- `matches` only reads the endpoint tuple of the connection. -/
theorem matches_congr {c1 c2 : ConnectionModel} (h : connTuple c1 = connTuple c2)
    (f t : String) (fp tp : DotPosition) : c1.matches f t fp tp = c2.matches f t fp tp := by
  obtain ⟨h1, h2, h3, h4⟩ :
      c1.fromNodeId = c2.fromNodeId ∧ c1.toNodeId = c2.toNodeId ∧
        c1.fromDot = c2.fromDot ∧ c1.toDot = c2.toDot := by
    simpa [connTuple, Prod.ext_iff] using h
  simp [ConnectionModel.matches, h1, h2, h3, h4]

/-- Node lookup through an equal-shape node list: if some reference node
with the looked-up id carries the dot side, the lookup succeeds and the
found node carries the id and the dot side.  (`ST` is the reference list
with pairwise-distinct ids.) -/
theorem find?_node_resolve (ns ST : List NodeModel)
    (hshape : ns.map nodeShape = ST.map nodeShape)
    (hnd : (ST.map NodeModel.id).Nodup)
    (i : String) (d : DotPosition)
    (hres : ∃ n ∈ ST, n.id = i ∧ d ∈ n.dotPositions) :
    ∃ fn, ns.find? (fun x => x.id == i) = some fn ∧ fn.id = i ∧ d ∈ fn.dotPositions := by
  obtain ⟨n, hn, hni, hndot⟩ := hres
  have hproj : ∀ ms : List NodeModel, ms.map NodeModel.id = (ms.map nodeShape).map Prod.fst := by
    intro ms
    rw [List.map_map]
    rfl
  have hids : ns.map NodeModel.id = ST.map NodeModel.id := by
    rw [hproj, hproj, hshape]
  have hmemid : i ∈ ns.map NodeModel.id := by
    rw [hids, ← hni]
    exact List.mem_map_of_mem _ hn
  obtain ⟨fn0, hfn0, hfn0i⟩ := List.mem_map.mp hmemid
  have hsome : (ns.find? (fun x => x.id == i)).isSome :=
    List.find?_isSome.mpr ⟨fn0, hfn0, by simp [hfn0i]⟩
  obtain ⟨fn, hfn⟩ := Option.isSome_iff_exists.mp hsome
  have hfnid : fn.id = i := by simpa using List.find?_some hfn
  refine ⟨fn, hfn, hfnid, ?_⟩
  have hfnmem : fn ∈ ns := List.mem_of_find?_eq_some hfn
  have h1 : nodeShape fn ∈ ST.map nodeShape := by
    rw [← hshape]
    exact List.mem_map_of_mem _ hfnmem
  obtain ⟨m, hm, hms⟩ := List.mem_map.mp h1
  have hmid : m.id = i := by
    have : (nodeShape m).1 = (nodeShape fn).1 := by rw [hms]
    simpa [nodeShape, hfnid] using this
  have hmn : m = n := List.inj_on_of_nodup_map hnd hm hn (by rw [hmid, hni])
  have hdots : fn.dotPositions = m.dotPositions := by
    have : (nodeShape m).2.2.1 = (nodeShape fn).2.2.1 := by rw [hms]
    simpa [nodeShape] using this.symm
  rw [hdots, hmn]
  exact hndot

/-- `createConnection` with explicit dots, no `beforeConnect` callback and
no equivalent existing connection: the resulting state gains exactly the
new connection, registered on both endpoint nodes. -/
theorem createConnection_clean (hooks : Hooks) (hbc : hooks.beforeConnect = [])
    (s : ConnState) (fn tn : NodeModel) (fd td : DotPosition) (silentB : Bool)
    (hdup : s.connections.find? (fun c => c.matches fn.id tn.id fd td) = none) :
    (createConnection hooks s fn tn (some fd) (some td) silentB).2.1 =
      { s with
        connections := s.connections ++
          [⟨ConnectionModel.generateId fn.id tn.id fd td s.now, fn.id, tn.id, fd, td⟩],
        nodes := addConnToNode (addConnToNode s.nodes fn.id
          (ConnectionModel.generateId fn.id tn.id fd td s.now)) tn.id
          (ConnectionModel.generateId fn.id tn.id fd td s.now) } := by
  simp [createConnection, createWithDots, hbc, prevExecute, createApproved, hdup]

/-- The `load` recreation loop over serialized connections that resolve in
the (shape-equal) node list, are pairwise non-equivalent and non-equivalent
to everything already present: every entry is recreated with its endpoint
tuple, in order, and no warning is produced. -/
theorem recreate_fold (hooks : Hooks) (hbc : hooks.beforeConnect = []) (silentB : Bool)
    (ST : List NodeModel) (hndN : (ST.map NodeModel.id).Nodup) :
    ∀ (csl : List ConnectionState) (s : ConnState) (ws : List LoadWarning),
    s.nodes.map nodeShape = ST.map nodeShape →
    (∀ cs ∈ csl,
      (∃ n ∈ ST, n.id = cs.fromNodeId ∧ cs.fromDot ∈ n.dotPositions) ∧
      (∃ n ∈ ST, n.id = cs.toNodeId ∧ cs.toDot ∈ n.dotPositions)) →
    (∀ cs ∈ csl, ∀ c ∈ s.connections,
      c.matches cs.fromNodeId cs.toNodeId cs.fromDot cs.toDot = false) →
    csl.Pairwise (fun a b =>
      (csConn a).matches b.fromNodeId b.toNodeId b.fromDot b.toDot = false) →
    ((csl.foldl (loadConnStep hooks silentB) (s, ws)).1).connections.map connTuple =
      s.connections.map connTuple ++ csl.map csTuple ∧
    (csl.foldl (loadConnStep hooks silentB) (s, ws)).2 = ws := by
  intro csl
  induction csl with
  | nil =>
    intro s ws _ _ _ _
    exact ⟨by simp, rfl⟩
  | cons cs csl ih =>
    intro s ws hshape hres hnoneq hpw
    obtain ⟨fn, hfn, hfnid, hfnd⟩ := find?_node_resolve s.nodes ST hshape hndN
      cs.fromNodeId cs.fromDot (hres cs (List.mem_cons_self _ _)).1
    obtain ⟨tn, htn, htnid, htnd2⟩ := find?_node_resolve s.nodes ST hshape hndN
      cs.toNodeId cs.toDot (hres cs (List.mem_cons_self _ _)).2
    have hdup : s.connections.find?
        (fun c => c.matches fn.id tn.id cs.fromDot cs.toDot) = none := by
      rw [List.find?_eq_none]
      intro c hcmem
      rw [hfnid, htnid]
      simp [hnoneq cs (List.mem_cons_self _ _) c hcmem]
    have hstep : loadConnStep hooks silentB (s, ws) cs =
        ((createConnection hooks s fn tn (some cs.fromDot) (some cs.toDot) silentB).2.1,
          ws) := by
      simp [loadConnStep, findNode, hfn, htn, NodeModel.getDot, hfnd, htnd2]
    have hcc := createConnection_clean hooks hbc s fn tn cs.fromDot cs.toDot silentB hdup
    have hshape' : ((createConnection hooks s fn tn (some cs.fromDot) (some cs.toDot)
        silentB).2.1).nodes.map nodeShape = ST.map nodeShape :=
      (nodeShape_createConnection hooks s fn tn _ _ silentB).trans hshape
    have hconns' : ((createConnection hooks s fn tn (some cs.fromDot) (some cs.toDot)
        silentB).2.1).connections = s.connections ++
        [⟨ConnectionModel.generateId fn.id tn.id cs.fromDot cs.toDot s.now,
          fn.id, tn.id, cs.fromDot, cs.toDot⟩] := by
      rw [hcc]
    have hnoneq' : ∀ cs' ∈ csl, ∀ c ∈ ((createConnection hooks s fn tn (some cs.fromDot)
        (some cs.toDot) silentB).2.1).connections,
        c.matches cs'.fromNodeId cs'.toNodeId cs'.fromDot cs'.toDot = false := by
      intro cs' hcs' c hc
      rw [hconns'] at hc
      rcases List.mem_append.mp hc with hc | hc
      · exact hnoneq cs' (List.mem_cons_of_mem _ hcs') c hc
      · have hceq := List.mem_singleton.mp hc
        subst hceq
        have hrel := (List.pairwise_cons.mp hpw).1 cs' hcs'
        have htup : connTuple (⟨ConnectionModel.generateId fn.id tn.id cs.fromDot
            cs.toDot s.now, fn.id, tn.id, cs.fromDot, cs.toDot⟩ : ConnectionModel) =
            connTuple (csConn cs) := by
          simp [connTuple, csConn, hfnid, htnid]
        rw [matches_congr htup]
        exact hrel
    obtain ⟨hm, hw⟩ := ih ((createConnection hooks s fn tn (some cs.fromDot)
        (some cs.toDot) silentB).2.1) ws hshape'
      (fun cs' h => hres cs' (List.mem_cons_of_mem _ h)) hnoneq'
      (List.pairwise_cons.mp hpw).2
    rw [List.foldl_cons, hstep]
    refine ⟨?_, hw⟩
    rw [hm, hconns']
    simp [csTuple, connTuple, hfnid, htnid, List.map_append]

/-- Claim C6: on a well-formed engine (at least one connection, distinct
node and connection ids, every connection's endpoints resolved by a
registered node carrying the dot side, and no two connections
endpoint-equivalent — the engine's own invariant), `load(save())` with no
hooks reproduces exactly the same sequence of connection endpoint tuples
and returns an empty warning list. -/
theorem load_save_roundtrip (st : ConnState)
    (hne : st.connections ≠ [])
    (hnodeNd : (st.nodes.map NodeModel.id).Nodup)
    (hconnNd : (st.connections.map ConnectionModel.id).Nodup)
    (hsound : ∀ c ∈ st.connections,
      (∃ n ∈ st.nodes, n.id = c.fromNodeId ∧ c.fromDot ∈ n.dotPositions) ∧
      (∃ n ∈ st.nodes, n.id = c.toNodeId ∧ c.toDot ∈ n.dotPositions))
    (hpair : st.connections.Pairwise (fun c1 c2 =>
      c1.matches c2.fromNodeId c2.toNodeId c2.fromDot c2.toDot = false)) :
    ((load emptyHooks st (save emptyHooks st) false).1).connections.map connTuple =
      st.connections.map connTuple ∧
    (load emptyHooks st (save emptyHooks st) false).2 = [] := by
  have hclres := cascade_clean emptyHooks true rfl st.connections st []
    (fun c hc => hc) hconnNd hconnNd
  have hclempty : ((st.connections.foldl (discStep emptyHooks true)
      (st, ([] : List Ev))).1).connections = [] := by
    rw [List.eq_nil_iff_forall_not_mem]
    intro x hx
    have h1 := (hclres.1 x).mp hx
    exact h1.2 h1.1
  have hclshape := nodeShape_discStepFold emptyHooks true st.connections (st, ([] : List Ev))
  obtain ⟨hm, hw⟩ := recreate_fold emptyHooks rfl false st.nodes hnodeNd
    (st.connections.map (fun c =>
      ConnectionState.mk c.id c.fromNodeId c.toNodeId c.fromDot c.toDot))
    (setViewStateOp ((st.connections.foldl (discStep emptyHooks true)
      (st, ([] : List Ev))).1) st.view) []
    hclshape
    (by
      intro cs hcs
      obtain ⟨c, hc, rfl⟩ := List.mem_map.mp hcs
      exact hsound c hc)
    (by
      intro cs hcs c hc
      rw [show (setViewStateOp ((st.connections.foldl (discStep emptyHooks true)
        (st, ([] : List Ev))).1) st.view).connections =
        ((st.connections.foldl (discStep emptyHooks true) (st, ([] : List Ev))).1).connections
        from rfl, hclempty] at hc
      cases hc)
    (by
      rw [List.pairwise_map]
      exact hpair)
  constructor
  · rw [show ((load emptyHooks st (save emptyHooks st) false).1) =
      ((st.connections.map (fun c =>
        ConnectionState.mk c.id c.fromNodeId c.toNodeId c.fromDot c.toDot)).foldl
          (loadConnStep emptyHooks false)
          (setViewStateOp ((st.connections.foldl (discStep emptyHooks true)
            (st, ([] : List Ev))).1) st.view, ([] : List LoadWarning))).1 from rfl]
    rw [hm]
    rw [show (setViewStateOp ((st.connections.foldl (discStep emptyHooks true)
      (st, ([] : List Ev))).1) st.view).connections =
      ((st.connections.foldl (discStep emptyHooks true) (st, ([] : List Ev))).1).connections
      from rfl]
    rw [hclempty]
    simp only [List.map_nil, List.nil_append, List.map_map]
    rfl
  · exact hw

/-- Witness for C6: a concrete two-node engine with one connection; the
round trip reproduces the connection tuple and yields no warnings. -/
theorem load_save_roundtrip_witness :
    ((load emptyHooks
      ⟨[⟨"A", ⟨0, 0⟩, none, [DotPosition.right], ["c1"]⟩,
        ⟨"B", ⟨9, 0⟩, none, [DotPosition.left], ["c1"]⟩],
       [⟨"c1", "A", "B", DotPosition.right, DotPosition.left⟩], ⟨1, 0, 0⟩, ⟨1, 4⟩, 0⟩
      (save emptyHooks
        ⟨[⟨"A", ⟨0, 0⟩, none, [DotPosition.right], ["c1"]⟩,
          ⟨"B", ⟨9, 0⟩, none, [DotPosition.left], ["c1"]⟩],
         [⟨"c1", "A", "B", DotPosition.right, DotPosition.left⟩], ⟨1, 0, 0⟩, ⟨1, 4⟩, 0⟩)
      false).1).connections.map connTuple =
      ([⟨"c1", "A", "B", DotPosition.right, DotPosition.left⟩] :
        List ConnectionModel).map connTuple ∧
    (load emptyHooks
      ⟨[⟨"A", ⟨0, 0⟩, none, [DotPosition.right], ["c1"]⟩,
        ⟨"B", ⟨9, 0⟩, none, [DotPosition.left], ["c1"]⟩],
       [⟨"c1", "A", "B", DotPosition.right, DotPosition.left⟩], ⟨1, 0, 0⟩, ⟨1, 4⟩, 0⟩
      (save emptyHooks
        ⟨[⟨"A", ⟨0, 0⟩, none, [DotPosition.right], ["c1"]⟩,
          ⟨"B", ⟨9, 0⟩, none, [DotPosition.left], ["c1"]⟩],
         [⟨"c1", "A", "B", DotPosition.right, DotPosition.left⟩], ⟨1, 0, 0⟩, ⟨1, 4⟩, 0⟩)
      false).2 = [] :=
  load_save_roundtrip
    ⟨[⟨"A", ⟨0, 0⟩, none, [DotPosition.right], ["c1"]⟩,
      ⟨"B", ⟨9, 0⟩, none, [DotPosition.left], ["c1"]⟩],
     [⟨"c1", "A", "B", DotPosition.right, DotPosition.left⟩], ⟨1, 0, 0⟩, ⟨1, 4⟩, 0⟩
    (by decide) (by decide) (by decide)
    (by decide)
    (by decide)

end RoundTripClaims

section SnapClaims

/-- `scanList` processes the head anchor first. -/
theorem scanList_cons (cfg : SnapConfig) (position : Point)
    (a : String × DotPosition × Point) (l : List (String × DotPosition × Point))
    (acc : Option (SnapResult × ℚ)) :
    scanList cfg position (a :: l) acc =
      scanList cfg position l (stepAnchor cfg position acc a) := rfl

/-- `scanList` over an append scans the second part from the first part's
result. -/
theorem scanList_append (cfg : SnapConfig) (position : Point)
    (l1 l2 : List (String × DotPosition × Point)) (acc : Option (SnapResult × ℚ)) :
    scanList cfg position (l1 ++ l2) acc =
      scanList cfg position l2 (scanList cfg position l1 acc) :=
  List.foldl_append _ _ _ _

/-- An anchor in range that beats the running minimum becomes the new best
candidate. -/
theorem stepAnchor_taken {cfg : SnapConfig} {position : Point}
    {acc : Option (SnapResult × ℚ)} {a : String × DotPosition × Point}
    (h1 : 0 < cfg.snapDistance)
    (h2 : distSq position a.2.2 < cfg.snapDistance * cfg.snapDistance)
    (h3 : accBeats (distSq position a.2.2) acc) :
    stepAnchor cfg position acc a = some (⟨a.1, a.2.1, a.2.2⟩, distSq position a.2.2) := by
  simp only [stepAnchor]
  rw [if_pos ⟨⟨h1, h2⟩, h3⟩]

/-- Any other anchor leaves the running best candidate unchanged. -/
theorem stepAnchor_skip {cfg : SnapConfig} {position : Point}
    {acc : Option (SnapResult × ℚ)} {a : String × DotPosition × Point}
    (h : ¬((0 < cfg.snapDistance ∧
        distSq position a.2.2 < cfg.snapDistance * cfg.snapDistance) ∧
      accBeats (distSq position a.2.2) acc)) :
    stepAnchor cfg position acc a = acc := by
  simp only [stepAnchor]
  rw [if_neg h]

/-- Once the scan holds a candidate it always returns one. -/
theorem scanList_some (cfg : SnapConfig) (position : Point) :
    ∀ (l : List (String × DotPosition × Point)) (x : SnapResult × ℚ),
    ∃ y, scanList cfg position l (some x) = some y := by
  intro l
  induction l with
  | nil => intro x; exact ⟨x, rfl⟩
  | cons a l ih =>
    intro x
    rw [scanList_cons]
    by_cases hc : (0 < cfg.snapDistance ∧
        distSq position a.2.2 < cfg.snapDistance * cfg.snapDistance) ∧
        accBeats (distSq position a.2.2) (some x)
    · rw [stepAnchor_taken hc.1.1 hc.1.2 hc.2]
      exact ih _
    · rw [stepAnchor_skip hc]
      exact ih x

/-- Scanning from a candidate never worsens it and ends at or below every
in-range anchor of the scanned list. -/
theorem scanList_min_acc (cfg : SnapConfig) (position : Point)
    (hpos : 0 < cfg.snapDistance) :
    ∀ (l : List (String × DotPosition × Point)) (x y : SnapResult × ℚ),
    scanList cfg position l (some x) = some y →
    y.2 ≤ x.2 ∧ ∀ a ∈ l,
      distSq position a.2.2 < cfg.snapDistance * cfg.snapDistance →
        y.2 ≤ distSq position a.2.2 := by
  intro l
  induction l with
  | nil =>
    intro x y h
    rw [scanList] at h
    simp only [List.foldl_nil, Option.some.injEq] at h
    subst h
    exact ⟨le_refl _, by simp⟩
  | cons a l ih =>
    intro x y h
    rw [scanList_cons] at h
    by_cases hc : (0 < cfg.snapDistance ∧
        distSq position a.2.2 < cfg.snapDistance * cfg.snapDistance) ∧
        accBeats (distSq position a.2.2) (some x)
    · rw [stepAnchor_taken hc.1.1 hc.1.2 hc.2] at h
      obtain ⟨h1, h2⟩ := ih _ y h
      have hbeat : distSq position a.2.2 < x.2 := hc.2
      refine ⟨le_of_lt (lt_of_le_of_lt h1 hbeat), ?_⟩
      intro b hb hbc
      rcases List.mem_cons.mp hb with rfl | hb'
      · exact h1
      · exact h2 b hb' hbc
    · rw [stepAnchor_skip hc] at h
      obtain ⟨h1, h2⟩ := ih x y h
      refine ⟨h1, ?_⟩
      intro b hb hbc
      rcases List.mem_cons.mp hb with rfl | hb'
      · have hx : x.2 ≤ distSq position b.2.2 := by
          by_contra hlt
          push_neg at hlt
          exact hc ⟨⟨hpos, hbc⟩, hlt⟩
        exact le_trans h1 hx
      · exact h2 b hb' hbc

/-- The scan from the empty candidate returns nothing exactly when no
anchor is in snapping range. -/
theorem scanList_none_iff (cfg : SnapConfig) (position : Point)
    (hpos : 0 < cfg.snapDistance) :
    ∀ l : List (String × DotPosition × Point),
    (scanList cfg position l none = none ↔
      ∀ a ∈ l, ¬ distSq position a.2.2 < cfg.snapDistance * cfg.snapDistance) := by
  intro l
  induction l with
  | nil => simp [scanList]
  | cons a l ih =>
    rw [scanList_cons]
    by_cases hd : distSq position a.2.2 < cfg.snapDistance * cfg.snapDistance
    · rw [@stepAnchor_taken cfg position none a hpos hd trivial]
      obtain ⟨y, hy⟩ := scanList_some cfg position l _
      rw [hy]
      simp only [List.mem_cons]
      constructor
      · intro h
        cases h
      · intro h
        exact absurd hd (h a (Or.inl rfl))
    · rw [stepAnchor_skip (by
        intro hcon
        exact hd hcon.1.2)]
      rw [ih]
      simp only [List.mem_cons]
      constructor
      · intro h b hb
        rcases hb with rfl | hb'
        · exact hd
        · exact h b hb'
      · intro h b hb
        exact h b (Or.inr hb)

/-- A successful scan from the empty candidate returns an in-range value
that is minimal among the in-range anchors. -/
theorem scanList_min_none (cfg : SnapConfig) (position : Point)
    (hpos : 0 < cfg.snapDistance) :
    ∀ (l : List (String × DotPosition × Point)) (y : SnapResult × ℚ),
    scanList cfg position l none = some y →
    y.2 < cfg.snapDistance * cfg.snapDistance ∧
    ∀ a ∈ l, distSq position a.2.2 < cfg.snapDistance * cfg.snapDistance →
      y.2 ≤ distSq position a.2.2 := by
  intro l
  induction l with
  | nil =>
    intro y h
    rw [scanList] at h
    simp at h
  | cons a l ih =>
    intro y h
    rw [scanList_cons] at h
    by_cases hd : distSq position a.2.2 < cfg.snapDistance * cfg.snapDistance
    · rw [@stepAnchor_taken cfg position none a hpos hd trivial] at h
      obtain ⟨h1, h2⟩ := scanList_min_acc cfg position hpos l _ y h
      refine ⟨lt_of_le_of_lt h1 hd, ?_⟩
      intro b hb hbc
      rcases List.mem_cons.mp hb with rfl | hb'
      · exact h1
      · exact h2 b hb' hbc
    · rw [stepAnchor_skip (by
        intro hcon
        exact hd hcon.1.2)] at h
      obtain ⟨h1, h2⟩ := ih y h
      refine ⟨h1, ?_⟩
      intro b hb hbc
      rcases List.mem_cons.mp hb with rfl | hb'
      · exact absurd hbc hd
      · exact h2 b hb' hbc

/-- Provenance and tie-breaking of a successful scan: the result is one of
the scanned anchors, carries that anchor's data and squared distance, and
every anchor scanned *before* it lies strictly farther away — so on an
exact tie the first-encountered anchor wins. -/
theorem scanList_provenance (cfg : SnapConfig) (position : Point)
    (hpos : 0 < cfg.snapDistance) :
    ∀ (l : List (String × DotPosition × Point)) (y : SnapResult × ℚ),
    scanList cfg position l none = some y →
    ∃ pre a post, l = pre ++ a :: post ∧
      y = (⟨a.1, a.2.1, a.2.2⟩, distSq position a.2.2) ∧
      ∀ b ∈ pre, y.2 < distSq position b.2.2 := by
  intro l
  induction l using List.reverseRecOn with
  | nil =>
    intro y h
    rw [scanList] at h
    simp at h
  | append_singleton l a ih =>
    intro y h
    rw [scanList_append] at h
    rw [show scanList cfg position [a] (scanList cfg position l none) =
      stepAnchor cfg position (scanList cfg position l none) a from rfl] at h
    cases hsl : scanList cfg position l none with
    | none =>
      rw [hsl] at h
      by_cases hd : distSq position a.2.2 < cfg.snapDistance * cfg.snapDistance
      · rw [@stepAnchor_taken cfg position none a hpos hd trivial] at h
        rw [Option.some.injEq] at h
        subst h
        refine ⟨l, a, [], rfl, rfl, ?_⟩
        intro b hb
        have hnb := (scanList_none_iff cfg position hpos l).mp hsl b hb
        exact lt_of_lt_of_le hd (not_lt.mp hnb)
      · rw [stepAnchor_skip (fun hcon => hd hcon.1.2)] at h
        cases h
    | some w =>
      rw [hsl] at h
      by_cases hc : (0 < cfg.snapDistance ∧
          distSq position a.2.2 < cfg.snapDistance * cfg.snapDistance) ∧
          accBeats (distSq position a.2.2) (some w)
      · rw [stepAnchor_taken hc.1.1 hc.1.2 hc.2] at h
        rw [Option.some.injEq] at h
        subst h
        refine ⟨l, a, [], rfl, rfl, ?_⟩
        intro b hb
        obtain ⟨hw1, hw2⟩ := scanList_min_none cfg position hpos l w hsl
        by_cases hbc : distSq position b.2.2 < cfg.snapDistance * cfg.snapDistance
        · exact lt_of_lt_of_le hc.2 (hw2 b hb hbc)
        · exact lt_of_lt_of_le hc.1.2 (not_lt.mp hbc)
      · rw [stepAnchor_skip hc] at h
        rw [Option.some.injEq] at h
        subst h
        obtain ⟨pre, a0, post, hdec, hy, hpre⟩ := ih w hsl
        refine ⟨pre, a0, post ++ [a], ?_, hy, hpre⟩
        rw [hdec]
        simp

/-- The nested node/dot scan of `checkSnap` equals the flat scan over the
anchor enumeration. -/
theorem checkSnap_eq_scan (cfg : SnapConfig) (gdp : NodeModel → DotPosition → Point)
    (position : Point) (ex : String) (he : cfg.enabled = true) (nodes : List NodeModel) :
    checkSnap cfg gdp nodes position ex =
      (match scanList cfg position (anchorsOf gdp ex nodes) none with
       | none => none
       | some (r, _) => some r) := by
  have hfold : ∀ (ns : List NodeModel) (acc : Option (SnapResult × ℚ)),
      ns.foldl (fun acc node => if node.id == ex then acc
        else node.dotPositions.foldl
          (fun acc2 dp => stepAnchor cfg position acc2 (node.id, dp, gdp node dp)) acc) acc
      = scanList cfg position (anchorsOf gdp ex ns) acc := by
    intro ns
    induction ns with
    | nil => intro acc; rfl
    | cons n ns ih =>
      intro acc
      rw [List.foldl_cons]
      by_cases hid : n.id = ex
      · rw [if_pos (by simp [hid])]
        rw [ih]
        simp [anchorsOf, hid]
      · rw [if_neg (by simp [hid])]
        rw [show n.dotPositions.foldl
            (fun acc2 dp => stepAnchor cfg position acc2 (n.id, dp, gdp n dp)) acc =
            scanList cfg position
              (n.dotPositions.map (fun dp => (n.id, dp, gdp n dp))) acc from
          (List.foldl_map _ _ _ _).symm]
        rw [ih]
        rw [show anchorsOf gdp ex (n :: ns) =
          (n.dotPositions.map (fun dp => (n.id, dp, gdp n dp))) ++ anchorsOf gdp ex ns from by
            simp [anchorsOf, hid]]
        rw [scanList_append]
  unfold checkSnap
  rw [he]
  simp only [Bool.true_eq_false, if_false]
  rw [hfold]
  rfl

/-- Claim C7: with snapping enabled and a positive snap distance,
`checkSnap` returns `none` exactly when no anchor of a non-excluded node
lies strictly within `snapDistance` of the pointer (distances compared via
their squares, which is exact for nonnegative values); and when it returns
a result, that result is one of the scanned anchors (with its node id,
side and resolved position), lies strictly within `snapDistance`, is at
minimal distance among *all* anchors of non-excluded nodes, and every
anchor encountered earlier in scan order is strictly farther — so an exact
tie is won by the first-encountered anchor. -/
theorem checkSnap_closest_spec (cfg : SnapConfig) (gdp : NodeModel → DotPosition → Point)
    (nodes : List NodeModel) (position : Point) (excludeNodeId : String)
    (henabled : cfg.enabled = true) (hpos : 0 < cfg.snapDistance) :
    (checkSnap cfg gdp nodes position excludeNodeId = none ↔
      ∀ a ∈ anchorsOf gdp excludeNodeId nodes,
        ¬ distSq position a.2.2 < cfg.snapDistance * cfg.snapDistance) ∧
    (∀ r, checkSnap cfg gdp nodes position excludeNodeId = some r →
      distSq position r.position < cfg.snapDistance * cfg.snapDistance ∧
      (∀ a ∈ anchorsOf gdp excludeNodeId nodes,
        distSq position r.position ≤ distSq position a.2.2) ∧
      ∃ pre post, anchorsOf gdp excludeNodeId nodes =
          pre ++ (r.nodeId, r.dot, r.position) :: post ∧
        ∀ b ∈ pre, distSq position r.position < distSq position b.2.2) := by
  rw [checkSnap_eq_scan cfg gdp position excludeNodeId henabled nodes]
  cases hscan : scanList cfg position (anchorsOf gdp excludeNodeId nodes) none with
  | none =>
    constructor
    · constructor
      · intro _
        exact (scanList_none_iff cfg position hpos _).mp hscan
      · intro _
        rfl
    · intro r hr
      cases hr
  | some y =>
    obtain ⟨w, d⟩ := y
    have hin := scanList_min_none cfg position hpos _ _ hscan
    obtain ⟨pre, a0, post, hdec, hy, hpre⟩ := scanList_provenance cfg position hpos _ _ hscan
    rw [Prod.mk.injEq] at hy
    obtain ⟨hw, hd⟩ := hy
    subst hw
    subst hd
    constructor
    · constructor
      · intro h
        cases h
      · intro hall
        exfalso
        refine hall a0 ?_ hin.1
        rw [hdec]
        exact List.mem_append_right _ (List.mem_cons_self _ _)
    · intro r hr
      rw [Option.some.injEq] at hr
      subst hr
      refine ⟨hin.1, ?_, pre, post, hdec, ?_⟩
      · intro a ha
        by_cases hac : distSq position a.2.2 < cfg.snapDistance * cfg.snapDistance
        · exact hin.2 a ha hac
        · exact le_of_lt (lt_of_lt_of_le hin.1 (not_lt.mp hac))
      · intro b hb
        exact hpre b hb

/-- Witness for C7: two nodes with one anchor each, pointer at `(1, 0)`,
snap distance 5 and no node excluded ("X" matches no node). -/
theorem checkSnap_closest_spec_witness :
    (checkSnap ⟨true, 5⟩ (fun n _ => n.pos)
        [⟨"A", ⟨0, 0⟩, none, [DotPosition.right], []⟩,
         ⟨"B", ⟨3, 0⟩, none, [DotPosition.left], []⟩] ⟨1, 0⟩ "X" = none ↔
      ∀ a ∈ anchorsOf (fun n _ => n.pos) "X"
          [⟨"A", ⟨0, 0⟩, none, [DotPosition.right], []⟩,
           ⟨"B", ⟨3, 0⟩, none, [DotPosition.left], []⟩],
        ¬ distSq ⟨1, 0⟩ a.2.2 < (5 : ℚ) * 5) ∧
    (∀ r, checkSnap ⟨true, 5⟩ (fun n _ => n.pos)
        [⟨"A", ⟨0, 0⟩, none, [DotPosition.right], []⟩,
         ⟨"B", ⟨3, 0⟩, none, [DotPosition.left], []⟩] ⟨1, 0⟩ "X" = some r →
      distSq ⟨1, 0⟩ r.position < (5 : ℚ) * 5 ∧
      (∀ a ∈ anchorsOf (fun n _ => n.pos) "X"
          [⟨"A", ⟨0, 0⟩, none, [DotPosition.right], []⟩,
           ⟨"B", ⟨3, 0⟩, none, [DotPosition.left], []⟩],
        distSq ⟨1, 0⟩ r.position ≤ distSq ⟨1, 0⟩ a.2.2) ∧
      ∃ pre post, anchorsOf (fun n _ => n.pos) "X"
          [⟨"A", ⟨0, 0⟩, none, [DotPosition.right], []⟩,
           ⟨"B", ⟨3, 0⟩, none, [DotPosition.left], []⟩] =
          pre ++ (r.nodeId, r.dot, r.position) :: post ∧
        ∀ b ∈ pre, distSq ⟨1, 0⟩ r.position < distSq ⟨1, 0⟩ b.2.2) :=
  checkSnap_closest_spec ⟨true, 5⟩ (fun n _ => n.pos)
    [⟨"A", ⟨0, 0⟩, none, [DotPosition.right], []⟩,
     ⟨"B", ⟨3, 0⟩, none, [DotPosition.left], []⟩] ⟨1, 0⟩ "X" rfl (by decide)

end SnapClaims
